import Mathlib

/-!
# HyperVariables: generic Newton inversion of a distortion (`AbstractDistortion::undistort`)

Shallow embedding of `include/variables/distortions/abstract.hpp`.

* Scalars are the elements of a linearly ordered field `K` (exact arithmetic; instantiated at `ℚ`
  for concrete runs).  Floating-point rounding, infinities and NaN are outside the model.
* `Pixel<Scalar>` is a 2-vector, `Jacobian<Pixel<Scalar>>` a 2×2 matrix and
  `DynamicInputJacobian<Pixel<Scalar>>` a 2×`size` matrix.
* A raw output pointer is modelled by a `Bool` (non-null?) on the way in and by an `Option`
  (what was stored through it) on the way out.
* The pure virtual `distort` and the constants of `NumericVariableTraits` are parameters.
* Besides the values the source computes, the embedding records a trace: the calls made to
  `distort` and, for every loop iteration, the values of the expressions the source evaluates there.
-/

namespace hyper

/-! ## Data model -/

/-- A `Pixel<Scalar>`: a point of the image plane. -/
abbrev Pixel (K : Type) := Fin 2 → K

/-- A `Jacobian<Pixel<Scalar>>`: the square pixel-by-pixel matrix. -/
abbrev Jacobian (K : Type) := Matrix (Fin 2) (Fin 2) K

/-- A `DynamicInputJacobian<Pixel<Scalar>>` with `size` columns. -/
abbrev DynamicInputJacobian (K : Type) (size : Nat) := Matrix (Fin 2) (Fin size) K

/-- Modelled from the spec: `Traits<Pixel<Scalar>>::kNumParameters`, declared in
`variables/cartesian.hpp`; the spec fixes the pixel as a 2-D point. -/
def kNumParameters : Nat := 2

/-- The constants of `NumericVariableTraits<Scalar>` that `undistort` reads.  Their values are
declared outside the embedded file and are parameters here; the iteration cap is a count, hence a
natural number, so the loop body runs at least once. -/
structure NumericVariableTraits (K : Type) where
  kMaxNumDistortionSteps : Nat
  kDistortionTolerance2 : K
  kSmallAngleTolerance : K

/-- What one call of `distort` produces: the returned pixel, and the matrices it stores through
`raw_J_p_p` and `raw_J_p_d` when the respective pointer is non-null. -/
structure DistortResult (K : Type) (size : Nat) where
  pixel : Pixel K
  J_p_p : Jacobian K
  J_p_d : DynamicInputJacobian K size

/-- The part of `AbstractDistortion<TScalar, true>` that `undistort` depends on: the number of
bound parameters (`this->memory()`'s second component) and the pure virtual `distort`, whose two
`Bool` arguments say whether `raw_J_p_p` and `raw_J_p_d` are non-null. -/
structure AbstractDistortion (K : Type) where
  size : Nat
  distort : Pixel K → Bool → Bool → DistortResult K size

/-- One recorded call of `distort`: the pixel passed and which pointers were non-null. -/
structure DistortCall (K : Type) where
  pixel : Pixel K
  raw_J_p_p : Bool
  raw_J_p_d : Bool

/-- The values of one pass through the body of the `for` loop of `undistort`. -/
structure Iteration (K : Type) where
  /-- The loop counter. -/
  i : Nat
  /-- The value of `output` passed to `distort`. -/
  x : Pixel K
  /-- The residual `distort(output, ...) - pixel`. -/
  b : Pixel K
  /-- The matrix `distort` stored in `J_p_p_i`. -/
  J_p_p_i : Jacobian K
  /-- The value assigned to `J_p_p`. -/
  J_p_p : Jacobian K
  /-- The test `kDistortionTolerance2 < b.dot(b)`. -/
  exceeded : Bool
  /-- The first warning's condition was evaluated and held. -/
  warnMaxIterations : Bool
  /-- The second warning's condition was evaluated and held. -/
  warnNumericalIssues : Bool
  /-- The value of `output` when the pass ends. -/
  next : Pixel K

/-- The local variables of `undistort` while the loop runs, together with the trace. -/
structure LoopState (K : Type) where
  output : Pixel K
  J_p_p : Jacobian K
  J_p_p_i : Jacobian K
  /-- The loop was left through `break`. -/
  broke : Bool
  calls : List (DistortCall K)
  iterations : List (Iteration K)

/-- What `undistort` returns and stores, together with the trace. -/
structure UndistortResult (K : Type) (size : Nat) where
  /-- The returned pixel. -/
  output : Pixel K
  /-- The matrix stored through `raw_J_p_p`, if any. -/
  raw_J_p_p : Option (Jacobian K)
  /-- The matrix stored through `raw_J_p_d`, if any. -/
  raw_J_p_d : Option (DynamicInputJacobian K size)
  broke : Bool
  calls : List (DistortCall K)
  iterations : List (Iteration K)

section Operations

variable {K : Type} [LinearOrderedField K]

/-! ## Linear algebra used by the source -/

/-- The product `a.dot(b)` of two pixels. -/
def dot (a b : Pixel K) : K := a 0 * b 0 + a 1 * b 1

/-- The value of `determinant()` on a 2×2 matrix. -/
def determinant (A : Jacobian K) : K := A 0 0 * A 1 1 - A 1 0 * A 0 1

/-- The value of `inverse()` on a fixed-size 2×2 matrix: the cofactor formula, every entry scaled
by the reciprocal of the determinant.  In the field model the reciprocal of `0` is `0`. -/
def inverse (A : Jacobian K) : Jacobian K :=
  let invdet : K := 1 / determinant A
  !![A 1 1 * invdet, -A 0 1 * invdet; -A 1 0 * invdet, A 0 0 * invdet]

/-! ## `allocatePixelDistortionJacobian` -/

/-- The shape `{rows, cols}` that `allocatePixelDistortionJacobian` passes to the constructor of
the returned matrix (whose entries are left unset). -/
def allocatePixelDistortionJacobian (D : AbstractDistortion K) : Nat × Nat :=
  (kNumParameters, D.size)

/-- The shape `(rows, cols)` of a matrix. -/
def shape {r c : Nat} (_ : Matrix (Fin r) (Fin c) K) : Nat × Nat := (r, c)

/-! ## `undistort` -/

/-- The `for` loop of `undistort`.  The first argument counts the passes that remain before the
test `i <= kMaxNumDistortionSteps` fails, the second is the counter `i`. -/
def undistortLoop (T : NumericVariableTraits K) (D : AbstractDistortion K) (pixel : Pixel K) :
    Nat → Nat → LoopState K → LoopState K
  | 0, _, s => s
  | rem + 1, i, s =>
    let r := D.distort s.output true false
    let calls := s.calls ++ [{ pixel := s.output, raw_J_p_p := true, raw_J_p_d := false }]
    let b : Pixel K := r.pixel - pixel
    let J_p_p_i := r.J_p_p
    let J_p_p := inverse J_p_p_i
    if T.kDistortionTolerance2 < dot b b then
      let warnMax : Bool := decide (i = T.kMaxNumDistortionSteps)
      let warnNum : Bool := decide (determinant J_p_p_i < T.kSmallAngleTolerance)
      let output : Pixel K := s.output - Matrix.mulVec J_p_p b
      undistortLoop T D pixel rem (i + 1)
        { output := output, J_p_p := J_p_p, J_p_p_i := J_p_p_i, broke := false, calls := calls,
          iterations := s.iterations ++
            [{ i := i, x := s.output, b := b, J_p_p_i := J_p_p_i, J_p_p := J_p_p,
               exceeded := true, warnMaxIterations := warnMax, warnNumericalIssues := warnNum,
               next := output }] }
    else
      { output := s.output, J_p_p := J_p_p, J_p_p_i := J_p_p_i, broke := true, calls := calls,
        iterations := s.iterations ++
          [{ i := i, x := s.output, b := b, J_p_p_i := J_p_p_i, J_p_p := J_p_p,
             exceeded := false, warnMaxIterations := false, warnNumericalIssues := false,
             next := s.output }] }

/-- The state in which the loop is entered: `output = pixel`; `J_p_p` and `J_p_p_i` are declared
without an initial value in the source and are assigned in the first pass before they are read
(see `undistortLoop_init_irrelevant`). -/
def initialState (pixel : Pixel K) (J J_i : Jacobian K) : LoopState K :=
  { output := pixel, J_p_p := J, J_p_p_i := J_i, broke := false, calls := [], iterations := [] }

/-- Whether `data()` of a freshly constructed dynamic matrix with `2 * size` entries is non-null:
the dynamic storage of Eigen allocates nothing for a matrix without entries and `data()` is then
the null pointer. -/
def dataNonNull (size : Nat) : Bool := decide (size ≠ 0)

/-- `AbstractDistortion<TScalar, true>::undistort`.  `raw_J_p_p` and `raw_J_p_d` say whether the
respective pointer is non-null.  The call after the loop passes `J_p_d_i.data()`, the data pointer
of a fresh 2×`size` matrix, which is non-null exactly when the distortion has a parameter. -/
def undistort (T : NumericVariableTraits K) (D : AbstractDistortion K) (pixel : Pixel K)
    (raw_J_p_p raw_J_p_d : Bool) : UndistortResult K D.size :=
  let s := undistortLoop T D pixel (T.kMaxNumDistortionSteps + 1) 0 (initialState pixel 0 0)
  let out_J_p_p : Option (Jacobian K) := if raw_J_p_p then some s.J_p_p else none
  if raw_J_p_d then
    let J_p_d_i_data : Bool := dataNonNull D.size
    let J_p_d_i := (D.distort s.output false J_p_d_i_data).J_p_d
    { output := s.output, raw_J_p_p := out_J_p_p,
      raw_J_p_d := some (((-1 : K) • s.J_p_p) * J_p_d_i),
      broke := s.broke,
      calls := s.calls ++
        [{ pixel := s.output, raw_J_p_p := false, raw_J_p_d := J_p_d_i_data }],
      iterations := s.iterations }
  else
    { output := s.output, raw_J_p_p := out_J_p_p, raw_J_p_d := none,
      broke := s.broke, calls := s.calls, iterations := s.iterations }

/-! ## Names for the quantities the statements speak about -/

/-- The forward map as the loop evaluates it: the pixel returned by
`distort(x, J_p_p_i.data(), nullptr)`. -/
def forward (D : AbstractDistortion K) (x : Pixel K) : Pixel K := (D.distort x true false).pixel

/-- The forward pixel Jacobian as the loop obtains it: the matrix stored by
`distort(x, J_p_p_i.data(), nullptr)`. -/
def forwardJ (D : AbstractDistortion K) (x : Pixel K) : Jacobian K :=
  (D.distort x true false).J_p_p

/-- The forward parameter Jacobian: the matrix `distort` stores when it is called at `x` with a
non-null parameter-Jacobian pointer.  `undistort` obtains it from
`distort(x, nullptr, J_p_d_i.data())`; for a distortion without parameters the matrix has no
entries and the pointer is null (see `distort_J_p_d_data`). -/
def forwardJParams (D : AbstractDistortion K) (x : Pixel K) : DynamicInputJacobian K D.size :=
  (D.distort x false true).J_p_d

/-- The residual of the estimate `x` for the target `pixel`. -/
def residual (D : AbstractDistortion K) (pixel x : Pixel K) : Pixel K := forward D x - pixel

/-- One Newton update `x - J(x)⁻¹ * (distort(x) - pixel)`. -/
def newtonStep (D : AbstractDistortion K) (pixel x : Pixel K) : Pixel K :=
  x - Matrix.mulVec (inverse (forwardJ D x)) (residual D pixel x)

/-- The `j`-th Newton estimate, starting from `pixel`. -/
def newtonIterate (D : AbstractDistortion K) (pixel : Pixel K) : Nat → Pixel K
  | 0 => pixel
  | j + 1 => newtonStep D pixel (newtonIterate D pixel j)

/-- The call of `distort` made after the loop when `raw_J_p_d` is non-null:
`distort(x, nullptr, J_p_d_i.data())`. -/
def paramCall (D : AbstractDistortion K) (x : Pixel K) : DistortCall K :=
  { pixel := x, raw_J_p_p := false, raw_J_p_d := dataNonNull D.size }

/-- The loop test at the estimate `x`: `kDistortionTolerance2 < b.dot(b)` for the residual `b`
of `x`. -/
def exceeds (T : NumericVariableTraits K) (D : AbstractDistortion K) (pixel x : Pixel K) : Prop :=
  T.kDistortionTolerance2 < dot (residual D pixel x) (residual D pixel x)

instance (T : NumericVariableTraits K) (D : AbstractDistortion K) (pixel x : Pixel K) :
    Decidable (exceeds T D pixel x) := by
  unfold exceeds; infer_instance

/-- The record of the pass with counter `i` entered with `output = x`. -/
def iterationAt (T : NumericVariableTraits K) (D : AbstractDistortion K) (pixel : Pixel K)
    (i : Nat) (x : Pixel K) : Iteration K :=
  if exceeds T D pixel x then
    { i := i, x := x, b := residual D pixel x, J_p_p_i := forwardJ D x,
      J_p_p := inverse (forwardJ D x), exceeded := true,
      warnMaxIterations := decide (i = T.kMaxNumDistortionSteps),
      warnNumericalIssues := decide (determinant (forwardJ D x) < T.kSmallAngleTolerance),
      next := newtonStep D pixel x }
  else
    { i := i, x := x, b := residual D pixel x, J_p_p_i := forwardJ D x,
      J_p_p := inverse (forwardJ D x), exceeded := false,
      warnMaxIterations := false, warnNumericalIssues := false, next := x }

/-- The call of `distort` made inside the loop at the estimate `x`. -/
def loopCall (x : Pixel K) : DistortCall K :=
  { pixel := x, raw_J_p_p := true, raw_J_p_d := false }

end Operations

/-! ## The angular metric -/

section Angular

/-- The product `u.dot(v)` of two 3-vectors. -/
def dot3 (u v : Fin 3 → ℝ) : ℝ := u 0 * v 0 + u 1 * v 1 + u 2 * v 2

/-- The Euclidean length `u.norm()` of a 3-vector. -/
noncomputable def norm3 (u : Fin 3 → ℝ) : ℝ := Real.sqrt (dot3 u u)

/-- Modelled from the spec: `AngularMetric<Cartesian<Scalar, 3>>::Distance`, defined in
`metrics/angular.hpp`, of which only the test is among the embedded sources.  The spec gives the
distance as `arccos((u·v) / (|u|·|v|))` with the ratio clamped to `[-1, 1]` before `arccos`.
Scalars are real numbers here. -/
noncomputable def AngularMetric.Distance (u v : Fin 3 → ℝ) : ℝ :=
  Real.arccos (max (-1) (min 1 (dot3 u v / (norm3 u * norm3 v))))

/-- The value `std::acos(u.dot(v) / (u.norm() * v.norm()))` that `CheckAngularMetric` compares
the distance with. -/
noncomputable def angularClosedForm (u v : Fin 3 → ℝ) : ℝ :=
  Real.arccos (dot3 u v / (norm3 u * norm3 v))

/-- The bound `kNumericTolerance` of `MetricsTests`. -/
noncomputable def kNumericTolerance : ℝ := 1e-7

end Angular

/-! ## The two shapes of a result -/

section Shapes

variable {K : Type} [LinearOrderedField K]
variable (T : NumericVariableTraits K) (D : AbstractDistortion K) (pixel : Pixel K)

/-- The result of `undistort` when the loop stops through the tolerance test in the pass with
counter `m`. -/
def convergedResult (raw_J_p_p raw_J_p_d : Bool) (m : Nat) : UndistortResult K D.size :=
  { output := newtonIterate D pixel m,
    raw_J_p_p :=
      if raw_J_p_p then some (inverse (forwardJ D (newtonIterate D pixel m))) else none,
    raw_J_p_d :=
      if raw_J_p_d then
        some (((-1 : K) • inverse (forwardJ D (newtonIterate D pixel m))) *
          forwardJParams D (newtonIterate D pixel m))
      else none,
    broke := true,
    calls := (List.range (m + 1)).map (fun j => loopCall (newtonIterate D pixel j)) ++
      (if raw_J_p_d then [paramCall D (newtonIterate D pixel m)] else []),
    iterations :=
      (List.range (m + 1)).map (fun j => iterationAt T D pixel j (newtonIterate D pixel j)) }

/-- The result of `undistort` when the tolerance test fails in every pass. -/
def exhaustedResult (raw_J_p_p raw_J_p_d : Bool) : UndistortResult K D.size :=
  { output := newtonIterate D pixel (T.kMaxNumDistortionSteps + 1),
    raw_J_p_p :=
      if raw_J_p_p then
        some (inverse (forwardJ D (newtonIterate D pixel T.kMaxNumDistortionSteps)))
      else none,
    raw_J_p_d :=
      if raw_J_p_d then
        some (((-1 : K) • inverse (forwardJ D (newtonIterate D pixel T.kMaxNumDistortionSteps))) *
          forwardJParams D (newtonIterate D pixel (T.kMaxNumDistortionSteps + 1)))
      else none,
    broke := false,
    calls :=
      (List.range (T.kMaxNumDistortionSteps + 1)).map
        (fun j => loopCall (newtonIterate D pixel j)) ++
      (if raw_J_p_d then [paramCall D (newtonIterate D pixel (T.kMaxNumDistortionSteps + 1))]
       else []),
    iterations :=
      (List.range (T.kMaxNumDistortionSteps + 1)).map
        (fun j => iterationAt T D pixel j (newtonIterate D pixel j)) }

end Shapes

/-! ## Concrete distortions over `ℚ` -/

section Examples

/-- Constants for the concrete runs: at most two further passes after the first, squared
tolerance `1/4`, determinant threshold `1/8`. -/
def exampleTraits : NumericVariableTraits ℚ :=
  { kMaxNumDistortionSteps := 2, kDistortionTolerance2 := 1 / 4, kSmallAngleTolerance := 1 / 8 }

/-- The distortion `x ↦ x + d` with the bound parameters `d = (1, 0)`; both Jacobians are the
identity. -/
def shiftDistortion : AbstractDistortion ℚ :=
  { size := 2
    distort := fun x _ _ => { pixel := ![x 0 + 1, x 1], J_p_p := 1, J_p_d := 1 } }

/-- The distortion `x ↦ s * x` with the bound parameter `s = 1/2`: the pixel Jacobian is
`s` times the identity, the parameter Jacobian is the column `x`. -/
def halveDistortion : AbstractDistortion ℚ :=
  { size := 1
    distort := fun x _ _ =>
      { pixel := ![x 0 / 2, x 1 / 2], J_p_p := !![1 / 2, 0; 0, 1 / 2], J_p_d := !![x 0; x 1] } }

/-- The distortion `(x, y) ↦ (x², y)` without parameters, with its pixel Jacobian. -/
def squareDistortion : AbstractDistortion ℚ :=
  { size := 0
    distort := fun x _ _ =>
      { pixel := ![x 0 * x 0, x 1], J_p_p := !![2 * x 0, 0; 0, 1], J_p_d := 0 } }

/-- The distortion `(x, y) ↦ (-x, y)` without parameters, with its pixel Jacobian. -/
def mirrorDistortion : AbstractDistortion ℚ :=
  { size := 0
    distort := fun x _ _ =>
      { pixel := ![-x 0, x 1], J_p_p := !![-1, 0; 0, 1], J_p_d := 0 } }

end Examples

/-! ## The data pointer of the parameter Jacobian -/

section DataPointer

variable {K : Type}

/-- The matrix the call after the loop stores is the forward parameter Jacobian: with a parameter
the pointer passed is non-null, and without parameters a 2×0 matrix has no entries. -/
theorem distort_J_p_d_data (D : AbstractDistortion K) (x : Pixel K) :
    (D.distort x false (dataNonNull D.size)).J_p_d = forwardJParams D x := by
  by_cases h : D.size = 0
  · ext i j
    exact absurd j.2 (by omega)
  · simp [dataNonNull, h, forwardJParams]

end DataPointer

/-! ## The loop, one pass at a time -/

section LoopLemmas

variable {K : Type} [LinearOrderedField K]
variable (T : NumericVariableTraits K) (D : AbstractDistortion K) (pixel : Pixel K)

theorem undistortLoop_succ_of_exceeds (rem i : Nat) (s : LoopState K)
    (h : exceeds T D pixel s.output) :
    undistortLoop T D pixel (rem + 1) i s =
      undistortLoop T D pixel rem (i + 1)
        { output := newtonStep D pixel s.output, J_p_p := inverse (forwardJ D s.output),
          J_p_p_i := forwardJ D s.output, broke := false,
          calls := s.calls ++ [loopCall s.output],
          iterations := s.iterations ++ [iterationAt T D pixel i s.output] } := by
  have h1 : T.kDistortionTolerance2 <
      dot ((D.distort s.output true false).pixel - pixel)
        ((D.distort s.output true false).pixel - pixel) := h
  simp only [undistortLoop, iterationAt, if_pos h, if_pos h1]
  rfl

theorem undistortLoop_succ_of_not_exceeds (rem i : Nat) (s : LoopState K)
    (h : ¬ exceeds T D pixel s.output) :
    undistortLoop T D pixel (rem + 1) i s =
      { output := s.output, J_p_p := inverse (forwardJ D s.output),
        J_p_p_i := forwardJ D s.output, broke := true,
        calls := s.calls ++ [loopCall s.output],
        iterations := s.iterations ++ [iterationAt T D pixel i s.output] } := by
  have h1 : ¬ T.kDistortionTolerance2 <
      dot ((D.distort s.output true false).pixel - pixel)
        ((D.distort s.output true false).pixel - pixel) := h
  simp only [undistortLoop, iterationAt, if_neg h, if_neg h1]
  rfl

/-- The values `J_p_p` and `J_p_p_i` hold when the loop is entered do not matter: the first pass
assigns both. -/
theorem undistortLoop_init_irrelevant (J J_i : Jacobian K) :
    undistortLoop T D pixel (T.kMaxNumDistortionSteps + 1) 0 (initialState pixel J J_i) =
      undistortLoop T D pixel (T.kMaxNumDistortionSteps + 1) 0 (initialState pixel 0 0) := by
  by_cases h : exceeds T D pixel pixel
  · rw [undistortLoop_succ_of_exceeds T D pixel _ _ _ h,
      undistortLoop_succ_of_exceeds T D pixel _ _ _ h]
    rfl
  · rw [undistortLoop_succ_of_not_exceeds T D pixel _ _ _ h,
      undistortLoop_succ_of_not_exceeds T D pixel _ _ _ h]
    rfl

/-- What a run of the loop amounts to.  From a state that has not left the loop, `rem` further
passes either stop through the tolerance test at the first estimate `m < rem` that meets it, or take
all `rem` updates. -/
theorem undistortLoop_run (rem i : Nat) (s : LoopState K) (hs : s.broke = false) :
    (∃ m, m < rem ∧ (∀ j, j < m → exceeds T D pixel ((newtonStep D pixel)^[j] s.output)) ∧
        ¬ exceeds T D pixel ((newtonStep D pixel)^[m] s.output) ∧
        undistortLoop T D pixel rem i s =
          { output := (newtonStep D pixel)^[m] s.output,
            J_p_p := inverse (forwardJ D ((newtonStep D pixel)^[m] s.output)),
            J_p_p_i := forwardJ D ((newtonStep D pixel)^[m] s.output),
            broke := true,
            calls := s.calls ++
              (List.range (m + 1)).map (fun j => loopCall ((newtonStep D pixel)^[j] s.output)),
            iterations := s.iterations ++
              (List.range (m + 1)).map
                (fun j => iterationAt T D pixel (i + j) ((newtonStep D pixel)^[j] s.output)) }) ∨
    ((∀ j, j < rem → exceeds T D pixel ((newtonStep D pixel)^[j] s.output)) ∧
        undistortLoop T D pixel rem i s =
          { output := (newtonStep D pixel)^[rem] s.output,
            J_p_p := if rem = 0 then s.J_p_p
              else inverse (forwardJ D ((newtonStep D pixel)^[rem - 1] s.output)),
            J_p_p_i := if rem = 0 then s.J_p_p_i
              else forwardJ D ((newtonStep D pixel)^[rem - 1] s.output),
            broke := false,
            calls := s.calls ++
              (List.range rem).map (fun j => loopCall ((newtonStep D pixel)^[j] s.output)),
            iterations := s.iterations ++
              (List.range rem).map
                (fun j => iterationAt T D pixel (i + j) ((newtonStep D pixel)^[j] s.output)) }) := by
  induction rem generalizing i s with
  | zero =>
    right
    refine ⟨fun j hj => absurd hj (Nat.not_lt_zero j), ?_⟩
    cases s
    simp_all [undistortLoop]
  | succ rem ih =>
    by_cases hx : exceeds T D pixel s.output
    · rw [undistortLoop_succ_of_exceeds T D pixel rem i s hx]
      rcases ih (i + 1)
          { output := newtonStep D pixel s.output, J_p_p := inverse (forwardJ D s.output),
            J_p_p_i := forwardJ D s.output, broke := false,
            calls := s.calls ++ [loopCall s.output],
            iterations := s.iterations ++ [iterationAt T D pixel i s.output] } rfl
        with ⟨m, hm, hlt, hstop, heq⟩ | ⟨hall, heq⟩
      · left
        refine ⟨m + 1, Nat.succ_lt_succ hm, ?_, ?_, ?_⟩
        · intro j hj
          cases j with
          | zero => exact hx
          | succ j => exact hlt j (Nat.lt_of_succ_lt_succ hj)
        · exact hstop
        · rw [heq]
          simp only [Function.iterate_succ_apply, List.append_assoc, List.singleton_append,
            List.range_succ_eq_map 0, List.range_succ_eq_map (m + 1), List.map_cons, List.map_map,
            Function.iterate_zero, id_eq, Nat.add_zero, LoopState.mk.injEq, true_and,
            List.append_cancel_left_eq, List.cons.injEq]
          refine ⟨List.map_congr_left fun j _ => ?_, List.map_congr_left fun j _ => ?_⟩
          · simp [Function.iterate_succ_apply]
          · simp [Function.iterate_succ_apply, Nat.add_assoc, Nat.add_comm 1 j]
      · right
        refine ⟨?_, ?_⟩
        · intro j hj
          cases j with
          | zero => exact hx
          | succ j => exact hall j (Nat.lt_of_succ_lt_succ hj)
        · rw [heq]
          have hJ : (if rem = 0 then inverse (forwardJ D s.output)
              else inverse (forwardJ D ((newtonStep D pixel)^[rem - 1]
                (newtonStep D pixel s.output)))) =
              inverse (forwardJ D ((newtonStep D pixel)^[rem] s.output)) := by
            cases rem with
            | zero => simp
            | succ r => simp [Function.iterate_succ_apply]
          have hJi : (if rem = 0 then forwardJ D s.output
              else forwardJ D ((newtonStep D pixel)^[rem - 1]
                (newtonStep D pixel s.output))) =
              forwardJ D ((newtonStep D pixel)^[rem] s.output) := by
            cases rem with
            | zero => simp
            | succ r => simp [Function.iterate_succ_apply]
          simp only [hJ, hJi, Function.iterate_succ_apply, List.append_assoc,
            List.singleton_append, List.range_succ_eq_map rem, List.map_cons, List.map_map,
            Function.iterate_zero, id_eq, Nat.add_zero, LoopState.mk.injEq, true_and,
            List.append_cancel_left_eq, List.cons.injEq, Nat.succ_ne_zero, if_false,
            Nat.add_sub_cancel]
          refine ⟨List.map_congr_left fun j _ => ?_, List.map_congr_left fun j _ => ?_⟩
          · simp [Function.iterate_succ_apply]
          · simp [Function.iterate_succ_apply, Nat.add_assoc, Nat.add_comm 1 j]
    · left
      refine ⟨0, Nat.succ_pos rem, fun j hj => absurd hj (Nat.not_lt_zero j), hx, ?_⟩
      rw [undistortLoop_succ_of_not_exceeds T D pixel rem i s hx]
      simp [List.range_succ]

theorem newtonIterate_eq_iterate (j : Nat) :
    newtonIterate D pixel j = (newtonStep D pixel)^[j] pixel := by
  induction j with
  | zero => rfl
  | succ j ih => rw [Function.iterate_succ_apply', newtonIterate, ih]

/-- Every run of `undistort` has one of two shapes: the loop stops through the tolerance test at
the first Newton estimate that meets it, among the estimates `0 .. kMaxNumDistortionSteps`, or
none of these meets it and all `kMaxNumDistortionSteps + 1` passes update `output`. -/
theorem undistort_run (raw_J_p_p raw_J_p_d : Bool) :
    (∃ m, m ≤ T.kMaxNumDistortionSteps ∧
        (∀ j, j < m → exceeds T D pixel (newtonIterate D pixel j)) ∧
        ¬ exceeds T D pixel (newtonIterate D pixel m) ∧
        undistort T D pixel raw_J_p_p raw_J_p_d =
          convergedResult T D pixel raw_J_p_p raw_J_p_d m) ∨
    ((∀ j, j ≤ T.kMaxNumDistortionSteps → exceeds T D pixel (newtonIterate D pixel j)) ∧
        undistort T D pixel raw_J_p_p raw_J_p_d =
          exhaustedResult T D pixel raw_J_p_p raw_J_p_d) := by
  have hit : ∀ j, (newtonStep D pixel)^[j] pixel = newtonIterate D pixel j :=
    fun j => (newtonIterate_eq_iterate D pixel j).symm
  rcases undistortLoop_run T D pixel (T.kMaxNumDistortionSteps + 1) 0 (initialState pixel 0 0) rfl
    with ⟨m, hm, hlt, hstop, heq⟩ | ⟨hall, heq⟩
  · left
    simp only [initialState, hit, Nat.zero_add, List.nil_append] at hlt hstop heq
    refine ⟨m, Nat.lt_succ_iff.mp hm, hlt, hstop, ?_⟩
    unfold undistort convergedResult
    simp only [initialState, heq]
    cases raw_J_p_p <;> cases raw_J_p_d <;> simp [distort_J_p_d_data, paramCall]
  · right
    simp only [initialState, hit, Nat.zero_add, List.nil_append, Nat.succ_ne_zero, if_false,
      Nat.add_sub_cancel] at hall heq
    refine ⟨fun j hj => hall j (Nat.lt_succ_of_le hj), ?_⟩
    unfold undistort exhaustedResult
    simp only [initialState, heq]
    cases raw_J_p_p <;> cases raw_J_p_d <;> simp [distort_J_p_d_data, paramCall]

/-- If the estimates before the `m`-th fail the tolerance test and the `m`-th meets it, within
the passes the loop makes, `undistort` stops at the `m`-th. -/
theorem undistort_eq_convergedResult (raw_J_p_p raw_J_p_d : Bool) (m : Nat)
    (hm : m ≤ T.kMaxNumDistortionSteps)
    (hlt : ∀ j, j < m → exceeds T D pixel (newtonIterate D pixel j))
    (hstop : ¬ exceeds T D pixel (newtonIterate D pixel m)) :
    undistort T D pixel raw_J_p_p raw_J_p_d =
      convergedResult T D pixel raw_J_p_p raw_J_p_d m := by
  rcases undistort_run T D pixel raw_J_p_p raw_J_p_d with ⟨n, _, hlt2, hstop2, heq⟩ | ⟨hall, _⟩
  · rcases Nat.lt_trichotomy n m with h | h | h
    · exact absurd (hlt n h) hstop2
    · rw [heq, h]
    · exact absurd (hlt2 m h) hstop
  · exact absurd (hall m hm) hstop

/-- If every estimate `0 .. kMaxNumDistortionSteps` fails the tolerance test, `undistort` makes
all its passes. -/
theorem undistort_eq_exhaustedResult (raw_J_p_p raw_J_p_d : Bool)
    (hall : ∀ j, j ≤ T.kMaxNumDistortionSteps → exceeds T D pixel (newtonIterate D pixel j)) :
    undistort T D pixel raw_J_p_p raw_J_p_d = exhaustedResult T D pixel raw_J_p_p raw_J_p_d := by
  rcases undistort_run T D pixel raw_J_p_p raw_J_p_d with ⟨n, hn, _, hstop, _⟩ | ⟨_, heq⟩
  · exact absurd (hall n hn) hstop
  · exact heq

/-- When the loop is left through `break`, the result is a converged one. -/
theorem undistort_broke (raw_J_p_p raw_J_p_d : Bool)
    (h : (undistort T D pixel raw_J_p_p raw_J_p_d).broke = true) :
    ∃ m, m ≤ T.kMaxNumDistortionSteps ∧
      (∀ j, j < m → exceeds T D pixel (newtonIterate D pixel j)) ∧
      ¬ exceeds T D pixel (newtonIterate D pixel m) ∧
      undistort T D pixel raw_J_p_p raw_J_p_d =
        convergedResult T D pixel raw_J_p_p raw_J_p_d m := by
  rcases undistort_run T D pixel raw_J_p_p raw_J_p_d with hc | ⟨_, heq⟩
  · exact hc
  · rw [heq] at h
    simp [exhaustedResult] at h

/-- When the loop is not left through `break`, the result is an exhausted one. -/
theorem undistort_not_broke (raw_J_p_p raw_J_p_d : Bool)
    (h : (undistort T D pixel raw_J_p_p raw_J_p_d).broke = false) :
    (∀ j, j ≤ T.kMaxNumDistortionSteps → exceeds T D pixel (newtonIterate D pixel j)) ∧
      undistort T D pixel raw_J_p_p raw_J_p_d =
        exhaustedResult T D pixel raw_J_p_p raw_J_p_d := by
  rcases undistort_run T D pixel raw_J_p_p raw_J_p_d with ⟨m, _, _, _, heq⟩ | he
  · rw [heq] at h
    simp [convergedResult] at h
  · exact he

/-! ### The record of a pass -/

@[simp] theorem iterationAt_i (i : Nat) (x : Pixel K) : (iterationAt T D pixel i x).i = i := by
  unfold iterationAt; split <;> rfl

@[simp] theorem iterationAt_x (i : Nat) (x : Pixel K) : (iterationAt T D pixel i x).x = x := by
  unfold iterationAt; split <;> rfl

@[simp] theorem iterationAt_b (i : Nat) (x : Pixel K) :
    (iterationAt T D pixel i x).b = residual D pixel x := by
  unfold iterationAt; split <;> rfl

@[simp] theorem iterationAt_J_p_p_i (i : Nat) (x : Pixel K) :
    (iterationAt T D pixel i x).J_p_p_i = forwardJ D x := by
  unfold iterationAt; split <;> rfl

@[simp] theorem iterationAt_J_p_p (i : Nat) (x : Pixel K) :
    (iterationAt T D pixel i x).J_p_p = inverse (forwardJ D x) := by
  unfold iterationAt; split <;> rfl

theorem iterationAt_exceeded (i : Nat) (x : Pixel K) :
    (iterationAt T D pixel i x).exceeded = true ↔ exceeds T D pixel x := by
  unfold iterationAt; split <;> simp [*]

theorem iterationAt_warnMaxIterations (i : Nat) (x : Pixel K) :
    (iterationAt T D pixel i x).warnMaxIterations = true ↔
      exceeds T D pixel x ∧ i = T.kMaxNumDistortionSteps := by
  unfold iterationAt; split <;> simp [*]

theorem iterationAt_warnNumericalIssues (i : Nat) (x : Pixel K) :
    (iterationAt T D pixel i x).warnNumericalIssues = true ↔
      exceeds T D pixel x ∧ determinant (forwardJ D x) < T.kSmallAngleTolerance := by
  unfold iterationAt; split <;> simp [*]

theorem iterationAt_next_of_exceeds (i : Nat) (x : Pixel K) (h : exceeds T D pixel x) :
    (iterationAt T D pixel i x).next = newtonStep D pixel x := by
  unfold iterationAt; rw [if_pos h]

theorem iterationAt_next_of_not_exceeds (i : Nat) (x : Pixel K) (h : ¬ exceeds T D pixel x) :
    (iterationAt T D pixel i x).next = x := by
  unfold iterationAt; rw [if_neg h]

/-- The passes of a run, in order: the pass with counter `j` is entered with the `j`-th Newton
estimate, and there are at most `kMaxNumDistortionSteps + 1` of them. -/
theorem undistort_iterations (raw_J_p_p raw_J_p_d : Bool) :
    ∃ n, n ≤ T.kMaxNumDistortionSteps + 1 ∧ 0 < n ∧
      (undistort T D pixel raw_J_p_p raw_J_p_d).iterations =
        (List.range n).map (fun j => iterationAt T D pixel j (newtonIterate D pixel j)) ∧
      (undistort T D pixel raw_J_p_p raw_J_p_d).calls =
        (List.range n).map (fun j => loopCall (newtonIterate D pixel j)) ++
          (if raw_J_p_d then [paramCall D (undistort T D pixel raw_J_p_p raw_J_p_d).output]
           else []) := by
  rcases undistort_run T D pixel raw_J_p_p raw_J_p_d with ⟨m, hm, _, _, heq⟩ | ⟨_, heq⟩
  · exact ⟨m + 1, Nat.succ_le_succ hm, Nat.succ_pos m, by rw [heq]; rfl, by rw [heq]; rfl⟩
  · exact ⟨T.kMaxNumDistortionSteps + 1, le_refl _, Nat.succ_pos _, by rw [heq]; rfl,
      by rw [heq]; rfl⟩

/-- In an exhausted run every pass updates `output`. -/
theorem exhaustedResult_filter_exceeded (raw_J_p_p raw_J_p_d : Bool)
    (hall : ∀ j, j ≤ T.kMaxNumDistortionSteps → exceeds T D pixel (newtonIterate D pixel j)) :
    (exhaustedResult T D pixel raw_J_p_p raw_J_p_d).iterations.filter (fun it => it.exceeded) =
      (exhaustedResult T D pixel raw_J_p_p raw_J_p_d).iterations := by
  rw [List.filter_eq_self]
  intro it hit
  obtain ⟨j, hj, rfl⟩ := List.mem_map.mp hit
  exact (iterationAt_exceeded T D pixel j _).mpr
    (hall j (Nat.lt_succ_iff.mp (List.mem_range.mp hj)))

end LoopLemmas

/-! ## The 2×2 inverse -/

section InverseLemmas

variable {K : Type} [LinearOrderedField K]

theorem determinant_eq_det (A : Jacobian K) : determinant A = A.det := by
  rw [Matrix.det_fin_two, determinant]; ring

/-- The cofactor formula agrees with the matrix inverse of Mathlib, at singular matrices too
(both are `0` there). -/
theorem inverse_eq_inv (A : Jacobian K) : inverse A = A⁻¹ := by
  rw [Matrix.inv_def, Matrix.adjugate_fin_two, Ring.inverse_eq_inv, ← determinant_eq_det]
  ext i j
  fin_cases i <;> fin_cases j <;> simp [inverse, mul_comm]

theorem mul_inverse_of_determinant_ne_zero (A : Jacobian K) (h : determinant A ≠ 0) :
    A * inverse A = 1 := by
  ext i j
  fin_cases i <;> fin_cases j <;>
    simp [inverse, determinant, Matrix.mul_apply, Fin.sum_univ_two] at h ⊢ <;>
    field_simp <;> ring

theorem inverse_mul_of_determinant_ne_zero (A : Jacobian K) (h : determinant A ≠ 0) :
    inverse A * A = 1 := by
  ext i j
  fin_cases i <;> fin_cases j <;>
    simp [inverse, determinant, Matrix.mul_apply, Fin.sum_univ_two] at h ⊢ <;>
    field_simp <;> ring

end InverseLemmas

/-! ## Concrete runs -/

section ExampleRuns

theorem shift_iterate_one : newtonIterate shiftDistortion ![0, 0] 1 = ![-1, 0] := by
  ext i
  fin_cases i <;>
    simp [newtonIterate, newtonStep, residual, forward, forwardJ, inverse, determinant,
      shiftDistortion, Matrix.mulVec, Matrix.dotProduct, Fin.sum_univ_two]

/-- With target `(0, 0)` the shift needs one update: the start has residual `(1, 0)`, the next
estimate `(-1, 0)` has residual `0`. -/
theorem shift_run (raw_J_p_p raw_J_p_d : Bool) :
    undistort exampleTraits shiftDistortion ![0, 0] raw_J_p_p raw_J_p_d =
      convergedResult exampleTraits shiftDistortion ![0, 0] raw_J_p_p raw_J_p_d 1 := by
  apply undistort_eq_convergedResult
  · simp [exampleTraits]
  · intro j hj
    obtain rfl : j = 0 := by omega
    simp [exceeds, exampleTraits, dot, newtonIterate, residual, forward, shiftDistortion]
    norm_num
  · rw [shift_iterate_one]
    simp [exceeds, exampleTraits, dot, residual, forward, shiftDistortion]

theorem shift_determinant_ne_zero (x : Pixel ℚ) :
    determinant (forwardJ shiftDistortion x) ≠ 0 := by
  simp [determinant, forwardJ, shiftDistortion]

/-- Undistorting `distort (2, 0) = (1, 0)` under the halving map stops in the first pass: the
start `(1, 0)` has residual `(-1/2, 0)`, whose squared norm equals the tolerance `1/4`. -/
theorem halve_run (raw_J_p_p raw_J_p_d : Bool) :
    undistort exampleTraits halveDistortion (forward halveDistortion ![2, 0])
        raw_J_p_p raw_J_p_d =
      convergedResult exampleTraits halveDistortion (forward halveDistortion ![2, 0])
        raw_J_p_p raw_J_p_d 0 := by
  apply undistort_eq_convergedResult
  · simp [exampleTraits]
  · intro j hj
    omega
  · simp [exceeds, exampleTraits, dot, newtonIterate, residual, forward, halveDistortion]
    norm_num

theorem square_step_start :
    newtonStep squareDistortion ![-3, 0] ![-3, 0] = ![-1, 0] := by
  ext i
  fin_cases i
  · simp [newtonStep, residual, forward, forwardJ, inverse, determinant,
      squareDistortion, Matrix.mulVec, Matrix.dotProduct, Fin.sum_univ_two]
    norm_num
  · simp [newtonStep, residual, forward, forwardJ, inverse, determinant,
      squareDistortion, Matrix.mulVec, Matrix.dotProduct, Fin.sum_univ_two]

theorem square_step_minus_one :
    newtonStep squareDistortion ![-3, 0] ![-1, 0] = ![1, 0] := by
  ext i
  fin_cases i
  · simp [newtonStep, residual, forward, forwardJ, inverse, determinant,
      squareDistortion, Matrix.mulVec, Matrix.dotProduct, Fin.sum_univ_two]
    norm_num
  · simp [newtonStep, residual, forward, forwardJ, inverse, determinant,
      squareDistortion, Matrix.mulVec, Matrix.dotProduct, Fin.sum_univ_two]

theorem square_step_one :
    newtonStep squareDistortion ![-3, 0] ![1, 0] = ![-1, 0] := by
  ext i
  fin_cases i
  · simp [newtonStep, residual, forward, forwardJ, inverse, determinant,
      squareDistortion, Matrix.mulVec, Matrix.dotProduct, Fin.sum_univ_two]
    norm_num
  · simp [newtonStep, residual, forward, forwardJ, inverse, determinant,
      squareDistortion, Matrix.mulVec, Matrix.dotProduct, Fin.sum_univ_two]

theorem square_iterate_one : newtonIterate squareDistortion ![-3, 0] 1 = ![-1, 0] :=
  square_step_start

theorem square_iterate_two : newtonIterate squareDistortion ![-3, 0] 2 = ![1, 0] := by
  rw [newtonIterate, square_iterate_one, square_step_minus_one]

theorem square_iterate_three : newtonIterate squareDistortion ![-3, 0] 3 = ![-1, 0] := by
  rw [newtonIterate, square_iterate_two, square_step_one]

/-- No pixel is mapped to `(-3, 0)` by the squaring map; the Newton estimates are `-3, -1, 1, -1`
in the first coordinate, with residuals `12, 4, 4`. -/
theorem square_exceeds (j : Nat) (hj : j ≤ exampleTraits.kMaxNumDistortionSteps) :
    exceeds exampleTraits squareDistortion ![-3, 0] (newtonIterate squareDistortion ![-3, 0] j) := by
  have hj2 : j ≤ 2 := hj
  interval_cases j
  · simp [exceeds, exampleTraits, dot, newtonIterate, residual, forward, squareDistortion]
    norm_num
  · rw [square_iterate_one]
    simp [exceeds, exampleTraits, dot, residual, forward, squareDistortion]
    norm_num
  · rw [square_iterate_two]
    simp [exceeds, exampleTraits, dot, residual, forward, squareDistortion]
    norm_num

/-- All three passes of the squaring map at `(-3, 0)` update `output`. -/
theorem square_run (raw_J_p_p raw_J_p_d : Bool) :
    undistort exampleTraits squareDistortion ![-3, 0] raw_J_p_p raw_J_p_d =
      exhaustedResult exampleTraits squareDistortion ![-3, 0] raw_J_p_p raw_J_p_d :=
  undistort_eq_exhaustedResult _ _ _ _ _ square_exceeds

theorem mirror_iterate_one : newtonIterate mirrorDistortion ![1, 0] 1 = ![-1, 0] := by
  ext i
  fin_cases i <;>
    simp [newtonIterate, newtonStep, residual, forward, forwardJ, inverse, determinant,
      mirrorDistortion, Matrix.mulVec, Matrix.dotProduct, Fin.sum_univ_two]

/-- With target `(1, 0)` the mirror map needs one update: the start has residual `(-2, 0)`, the
next estimate `(-1, 0)` is mapped to the target. -/
theorem mirror_run (raw_J_p_p raw_J_p_d : Bool) :
    undistort exampleTraits mirrorDistortion ![1, 0] raw_J_p_p raw_J_p_d =
      convergedResult exampleTraits mirrorDistortion ![1, 0] raw_J_p_p raw_J_p_d 1 := by
  apply undistort_eq_convergedResult
  · simp [exampleTraits]
  · intro j hj
    obtain rfl : j = 0 := by omega
    simp [exceeds, exampleTraits, dot, newtonIterate, residual, forward, mirrorDistortion]
    norm_num
  · rw [mirror_iterate_one]
    simp [exceeds, exampleTraits, dot, residual, forward, mirrorDistortion]

/-- The first pass of the mirror run is entered with the target itself. -/
theorem mirror_first_pass_mem (raw_J_p_p raw_J_p_d : Bool) :
    iterationAt exampleTraits mirrorDistortion ![1, 0] 0 ![1, 0] ∈
      (undistort exampleTraits mirrorDistortion ![1, 0] raw_J_p_p raw_J_p_d).iterations := by
  rw [mirror_run]
  exact List.mem_map.mpr ⟨0, by simp, rfl⟩

/-- The residual `(-2, 0)` of the first pass of the mirror run fails the tolerance test. -/
theorem mirror_first_pass_exceeds :
    exampleTraits.kDistortionTolerance2 <
      dot (iterationAt exampleTraits mirrorDistortion ![1, 0] 0 ![1, 0]).b
        (iterationAt exampleTraits mirrorDistortion ![1, 0] 0 ![1, 0]).b := by
  rw [iterationAt_b]
  simp [exampleTraits, dot, residual, forward, mirrorDistortion]
  norm_num

end ExampleRuns

/-! ## Round trips -/

section RoundTrip

variable {K : Type} [LinearOrderedField K]

/-- C1: whenever the Newton loop of `undistort` is left through the tolerance test, the returned
pixel `q` satisfies `|distort(q) - pixel|² ≤ kDistortionTolerance2`, for every forward map and
every pixel. -/
theorem distort_undistort_within_tolerance (T : NumericVariableTraits K)
    (D : AbstractDistortion K) (pixel : Pixel K) (raw_J_p_p raw_J_p_d : Bool)
    (h : (undistort T D pixel raw_J_p_p raw_J_p_d).broke = true) :
    dot (forward D (undistort T D pixel raw_J_p_p raw_J_p_d).output - pixel)
        (forward D (undistort T D pixel raw_J_p_p raw_J_p_d).output - pixel) ≤
      T.kDistortionTolerance2 := by
  obtain ⟨m, _, _, hstop, heq⟩ := undistort_broke T D pixel raw_J_p_p raw_J_p_d h
  rw [heq]
  exact not_lt.mp hstop

/-- A converging run to which C1 applies: the shift with target `(0, 0)`. -/
theorem distort_undistort_within_tolerance_witness :
    (undistort exampleTraits shiftDistortion ![0, 0] true true).broke = true ∧
    dot (forward shiftDistortion (undistort exampleTraits shiftDistortion ![0, 0] true true).output
          - ![0, 0])
        (forward shiftDistortion (undistort exampleTraits shiftDistortion ![0, 0] true true).output
          - ![0, 0]) ≤
      exampleTraits.kDistortionTolerance2 :=
  ⟨by rw [shift_run]; rfl,
   distort_undistort_within_tolerance exampleTraits shiftDistortion ![0, 0] true true
     (by rw [shift_run]; rfl)⟩

/-- The halving map shrinks squared distances by the factor `4`. -/
theorem halve_shrinks (x y : Pixel ℚ) :
    dot (x - y) (x - y) ≤
      4 * dot (forward halveDistortion x - forward halveDistortion y)
        (forward halveDistortion x - forward halveDistortion y) := by
  simp only [dot, forward, halveDistortion, Pi.sub_apply, Matrix.cons_val_zero,
    Matrix.cons_val_one, Matrix.head_cons]
  apply le_of_eq
  ring

/-- C2, as stated, fails: the halving map has an invertible pixel Jacobian everywhere, the loop
of `undistort (distort (2, 0))` stops through the tolerance test, and yet the returned pixel
`(1, 0)` lies at squared distance `1 > 1/4` from `(2, 0)`. -/
theorem undistort_distort_not_within_tolerance :
    (∀ x : Pixel ℚ, determinant (forwardJ halveDistortion x) ≠ 0) ∧
    (undistort exampleTraits halveDistortion (forward halveDistortion ![2, 0])
      false false).broke = true ∧
    ¬ dot ((undistort exampleTraits halveDistortion (forward halveDistortion ![2, 0])
            false false).output - ![2, 0])
          ((undistort exampleTraits halveDistortion (forward halveDistortion ![2, 0])
            false false).output - ![2, 0]) ≤
        exampleTraits.kDistortionTolerance2 := by
  refine ⟨?_, ?_, ?_⟩
  · intro x
    simp [determinant, forwardJ, halveDistortion]
  · rw [halve_run]; rfl
  · rw [halve_run]
    simp [convergedResult, newtonIterate, forward, halveDistortion, dot, exampleTraits]
    norm_num

/-- C2, amended: when the loop of `undistort (distort p)` is left through the tolerance test, the
returned pixel `q` satisfies `|distort q - distort p|² ≤ kDistortionTolerance2`; the distance from
`q` to `p` itself is bounded by the tolerance only up to the factor `c` by which `distort` may
shrink squared distances (`|x - y|² ≤ c * |distort x - distort y|²`). -/
theorem undistort_distort_residual_within_tolerance (T : NumericVariableTraits K)
    (D : AbstractDistortion K) (p : Pixel K) (raw_J_p_p raw_J_p_d : Bool)
    (h : (undistort T D (forward D p) raw_J_p_p raw_J_p_d).broke = true) :
    dot (forward D (undistort T D (forward D p) raw_J_p_p raw_J_p_d).output - forward D p)
        (forward D (undistort T D (forward D p) raw_J_p_p raw_J_p_d).output - forward D p) ≤
      T.kDistortionTolerance2 ∧
    ∀ c : K, 0 ≤ c →
      (∀ x y : Pixel K, dot (x - y) (x - y) ≤
        c * dot (forward D x - forward D y) (forward D x - forward D y)) →
      dot ((undistort T D (forward D p) raw_J_p_p raw_J_p_d).output - p)
          ((undistort T D (forward D p) raw_J_p_p raw_J_p_d).output - p) ≤
        c * T.kDistortionTolerance2 := by
  obtain ⟨m, _, _, hstop, heq⟩ := undistort_broke T D (forward D p) raw_J_p_p raw_J_p_d h
  have hres : dot (forward D (undistort T D (forward D p) raw_J_p_p raw_J_p_d).output
        - forward D p)
      (forward D (undistort T D (forward D p) raw_J_p_p raw_J_p_d).output - forward D p) ≤
      T.kDistortionTolerance2 := by
    rw [heq]
    exact not_lt.mp hstop
  refine ⟨hres, fun c hc hlip => ?_⟩
  exact le_trans (hlip _ _) (mul_le_mul_of_nonneg_left hres hc)

/-- A converging run to which the amended C2 applies: the halving map at `p = (2, 0)`. -/
theorem undistort_distort_residual_within_tolerance_witness :
    (undistort exampleTraits halveDistortion (forward halveDistortion ![2, 0])
      true true).broke = true ∧
    dot (forward halveDistortion (undistort exampleTraits halveDistortion
          (forward halveDistortion ![2, 0]) true true).output - forward halveDistortion ![2, 0])
        (forward halveDistortion (undistort exampleTraits halveDistortion
          (forward halveDistortion ![2, 0]) true true).output - forward halveDistortion ![2, 0]) ≤
      exampleTraits.kDistortionTolerance2 ∧
    dot ((undistort exampleTraits halveDistortion
          (forward halveDistortion ![2, 0]) true true).output - ![2, 0])
        ((undistort exampleTraits halveDistortion
          (forward halveDistortion ![2, 0]) true true).output - ![2, 0]) ≤
      4 * exampleTraits.kDistortionTolerance2 :=
  ⟨by rw [halve_run]; rfl,
   (undistort_distort_residual_within_tolerance exampleTraits halveDistortion ![2, 0] true true
     (by rw [halve_run]; rfl)).1,
   (undistort_distort_residual_within_tolerance exampleTraits halveDistortion ![2, 0] true true
     (by rw [halve_run]; rfl)).2 4 (by norm_num) halve_shrinks⟩

end RoundTrip

/-! ## The Jacobians stored at convergence -/

section Jacobians

variable {K : Type} [LinearOrderedField K]

/-- C3: when the loop converges and `raw_J_p_p` is non-null, the matrix stored through it is
`inverse()` of the pixel Jacobian of `distort` at the returned pixel; whenever that Jacobian has a
non-zero determinant this is its two-sided matrix inverse. -/
theorem undistort_pixel_jacobian_is_inverse (T : NumericVariableTraits K)
    (D : AbstractDistortion K) (pixel : Pixel K) (raw_J_p_d : Bool)
    (h : (undistort T D pixel true raw_J_p_d).broke = true) :
    (undistort T D pixel true raw_J_p_d).raw_J_p_p =
        some (inverse (forwardJ D (undistort T D pixel true raw_J_p_d).output)) ∧
    (determinant (forwardJ D (undistort T D pixel true raw_J_p_d).output) ≠ 0 →
      forwardJ D (undistort T D pixel true raw_J_p_d).output *
          inverse (forwardJ D (undistort T D pixel true raw_J_p_d).output) = 1 ∧
      inverse (forwardJ D (undistort T D pixel true raw_J_p_d).output) *
          forwardJ D (undistort T D pixel true raw_J_p_d).output = 1) := by
  obtain ⟨m, _, _, _, heq⟩ := undistort_broke T D pixel true raw_J_p_d h
  refine ⟨?_, fun hdet => ⟨mul_inverse_of_determinant_ne_zero _ hdet,
    inverse_mul_of_determinant_ne_zero _ hdet⟩⟩
  rw [heq]
  simp [convergedResult]

/-- A converging run to which C3 applies: the shift with target `(0, 0)`, where the stored matrix
is the inverse of the identity. -/
theorem undistort_pixel_jacobian_is_inverse_witness :
    (undistort exampleTraits shiftDistortion ![0, 0] true false).broke = true ∧
    (undistort exampleTraits shiftDistortion ![0, 0] true false).raw_J_p_p =
      some (inverse (forwardJ shiftDistortion
        (undistort exampleTraits shiftDistortion ![0, 0] true false).output)) ∧
    forwardJ shiftDistortion (undistort exampleTraits shiftDistortion ![0, 0] true false).output *
      inverse (forwardJ shiftDistortion
        (undistort exampleTraits shiftDistortion ![0, 0] true false).output) = 1 :=
  ⟨by rw [shift_run]; rfl,
   (undistort_pixel_jacobian_is_inverse exampleTraits shiftDistortion ![0, 0] false
     (by rw [shift_run]; rfl)).1,
   ((undistort_pixel_jacobian_is_inverse exampleTraits shiftDistortion ![0, 0] false
     (by rw [shift_run]; rfl)).2 (shift_determinant_ne_zero _)).1⟩

/-- C4: when the loop converges to `q` and `raw_J_p_d` is non-null, the matrix stored through it
is `-(J(q)⁻¹ * J_params(q))`, with `J(q)⁻¹` the value of `inverse()` on the pixel Jacobian of
`distort` at `q` and `J_params(q)` its parameter Jacobian at `q`; whenever `J(q)` has a non-zero
determinant the stored matrix `W` solves `J(q) * W + J_params(q) = 0`. -/
theorem undistort_param_jacobian (T : NumericVariableTraits K)
    (D : AbstractDistortion K) (pixel : Pixel K) (raw_J_p_p : Bool)
    (h : (undistort T D pixel raw_J_p_p true).broke = true) :
    (undistort T D pixel raw_J_p_p true).raw_J_p_d =
        some (-(inverse (forwardJ D (undistort T D pixel raw_J_p_p true).output) *
          forwardJParams D (undistort T D pixel raw_J_p_p true).output)) ∧
    (determinant (forwardJ D (undistort T D pixel raw_J_p_p true).output) ≠ 0 →
      forwardJ D (undistort T D pixel raw_J_p_p true).output *
          (-(inverse (forwardJ D (undistort T D pixel raw_J_p_p true).output) *
            forwardJParams D (undistort T D pixel raw_J_p_p true).output)) +
        forwardJParams D (undistort T D pixel raw_J_p_p true).output = 0) := by
  obtain ⟨m, _, _, _, heq⟩ := undistort_broke T D pixel raw_J_p_p true h
  refine ⟨?_, fun hdet => ?_⟩
  · rw [heq]
    simp [convergedResult]
  · rw [Matrix.mul_neg, ← Matrix.mul_assoc, mul_inverse_of_determinant_ne_zero _ hdet,
      Matrix.one_mul, neg_add_cancel]

/-- A converging run to which C4 applies: the shift with target `(0, 0)`. -/
theorem undistort_param_jacobian_witness :
    (undistort exampleTraits shiftDistortion ![0, 0] false true).broke = true ∧
    (undistort exampleTraits shiftDistortion ![0, 0] false true).raw_J_p_d =
      some (-(inverse (forwardJ shiftDistortion
          (undistort exampleTraits shiftDistortion ![0, 0] false true).output) *
        forwardJParams shiftDistortion
          (undistort exampleTraits shiftDistortion ![0, 0] false true).output)) ∧
    forwardJ shiftDistortion (undistort exampleTraits shiftDistortion ![0, 0] false true).output *
        (-(inverse (forwardJ shiftDistortion
            (undistort exampleTraits shiftDistortion ![0, 0] false true).output) *
          forwardJParams shiftDistortion
            (undistort exampleTraits shiftDistortion ![0, 0] false true).output)) +
      forwardJParams shiftDistortion
        (undistort exampleTraits shiftDistortion ![0, 0] false true).output = 0 :=
  ⟨by rw [shift_run]; rfl,
   (undistort_param_jacobian exampleTraits shiftDistortion ![0, 0] false
     (by rw [shift_run]; rfl)).1,
   (undistort_param_jacobian exampleTraits shiftDistortion ![0, 0] false
     (by rw [shift_run]; rfl)).2 (shift_determinant_ne_zero _)⟩

end Jacobians

/-! ## Termination and the number of passes -/

section Passes

variable {K : Type} [LinearOrderedField K]

/-- C5, as stated, fails: with `kMaxNumDistortionSteps = 2` the run of the squaring map at
`(-3, 0)` evaluates the residual three times inside the loop and updates `output` three times. -/
theorem undistort_passes_exceed_max_steps :
    (undistort exampleTraits squareDistortion ![-3, 0] false false).iterations.length = 3 ∧
    ((undistort exampleTraits squareDistortion ![-3, 0] false false).iterations.filter
      (fun it => it.exceeded)).length = 3 ∧
    ¬ (undistort exampleTraits squareDistortion ![-3, 0] false false).iterations.length ≤
        exampleTraits.kMaxNumDistortionSteps := by
  rw [square_run, exhaustedResult_filter_exceeded _ _ _ _ _ square_exceeds]
  simp [exhaustedResult, exampleTraits]

/-- C5, amended: `undistort` is a total function, and its loop makes at most
`kMaxNumDistortionSteps + 1` passes, with counters `0, 1, 2, ...` in order: the residual is
evaluated (and `distort` called in the loop) at most `kMaxNumDistortionSteps + 1` times and at
least once, and `output` is updated at most `kMaxNumDistortionSteps + 1` times. -/
theorem undistort_passes_le_max_steps_succ (T : NumericVariableTraits K)
    (D : AbstractDistortion K) (pixel : Pixel K) (raw_J_p_p raw_J_p_d : Bool) :
    (undistort T D pixel raw_J_p_p raw_J_p_d).iterations.length ≤
        T.kMaxNumDistortionSteps + 1 ∧
    0 < (undistort T D pixel raw_J_p_p raw_J_p_d).iterations.length ∧
    (undistort T D pixel raw_J_p_p raw_J_p_d).iterations.map (fun it => it.i) =
        List.range (undistort T D pixel raw_J_p_p raw_J_p_d).iterations.length ∧
    ((undistort T D pixel raw_J_p_p raw_J_p_d).calls.filter
        (fun c => c.raw_J_p_p)).length =
      (undistort T D pixel raw_J_p_p raw_J_p_d).iterations.length ∧
    ((undistort T D pixel raw_J_p_p raw_J_p_d).iterations.filter
        (fun it => it.exceeded)).length ≤ T.kMaxNumDistortionSteps + 1 := by
  obtain ⟨n, hn, hpos, hit, hcalls⟩ := undistort_iterations T D pixel raw_J_p_p raw_J_p_d
  have hlen : (undistort T D pixel raw_J_p_p raw_J_p_d).iterations.length = n := by
    rw [hit]; simp
  refine ⟨hlen ▸ hn, hlen ▸ hpos, ?_, ?_, ?_⟩
  · rw [hlen, hit, List.map_map]
    conv_rhs => rw [← List.map_id (List.range n)]
    exact List.map_congr_left fun j _ => by simp
  · rw [hlen, hcalls, List.filter_append, List.length_append]
    have h1 : (List.filter (fun c : DistortCall K => c.raw_J_p_p)
        (List.map (fun j => loopCall (newtonIterate D pixel j)) (List.range n))).length = n := by
      rw [List.filter_eq_self.mpr]
      · simp
      · intro c hc
        obtain ⟨j, _, rfl⟩ := List.mem_map.mp hc
        rfl
    rw [h1]
    cases raw_J_p_d <;> simp [paramCall]
  · exact le_trans (List.length_filter_le _ _) (hlen ▸ hn)

end Passes

/-! ## Diagnostics -/

section Diagnostics

variable {K : Type} [LinearOrderedField K]

/-- C6: the condition of the "Maximum number of iterations reached." warning holds in some pass
if and only if no residual evaluated in the loop met `|b|² ≤ kDistortionTolerance2`; in that case
`undistort` still returns, the loop was not left through `break`, and the returned pixel is the
estimate after the last update, the Newton estimate number `kMaxNumDistortionSteps + 1`.  Every
recorded residual is `distort(x) - pixel` at the estimate `x` of its pass. -/
theorem undistort_max_iterations_warning (T : NumericVariableTraits K)
    (D : AbstractDistortion K) (pixel : Pixel K) (raw_J_p_p raw_J_p_d : Bool) :
    ((∃ it ∈ (undistort T D pixel raw_J_p_p raw_J_p_d).iterations,
          it.warnMaxIterations = true) ↔
      ∀ it ∈ (undistort T D pixel raw_J_p_p raw_J_p_d).iterations,
          ¬ dot it.b it.b ≤ T.kDistortionTolerance2) ∧
    ((∃ it ∈ (undistort T D pixel raw_J_p_p raw_J_p_d).iterations,
          it.warnMaxIterations = true) →
      (undistort T D pixel raw_J_p_p raw_J_p_d).broke = false ∧
      (undistort T D pixel raw_J_p_p raw_J_p_d).output =
        newtonIterate D pixel (T.kMaxNumDistortionSteps + 1) ∧
      (undistort T D pixel raw_J_p_p raw_J_p_d).iterations.getLast?.map (fun it => it.next) =
        some (undistort T D pixel raw_J_p_p raw_J_p_d).output) ∧
    (∀ it ∈ (undistort T D pixel raw_J_p_p raw_J_p_d).iterations,
      it.b = forward D it.x - pixel) := by
  rcases undistort_run T D pixel raw_J_p_p raw_J_p_d with ⟨m, hm, _, hstop, heq⟩ | ⟨hall, heq⟩
  · have hno : ¬ ∃ it ∈ (convergedResult T D pixel raw_J_p_p raw_J_p_d m).iterations,
        it.warnMaxIterations = true := by
      rintro ⟨it, hit, hw⟩
      obtain ⟨j, hj, rfl⟩ := List.mem_map.mp hit
      obtain ⟨hex, hjm⟩ := (iterationAt_warnMaxIterations T D pixel j _).mp hw
      have hjle : j ≤ m := Nat.lt_succ_iff.mp (List.mem_range.mp hj)
      have : j = m := le_antisymm hjle (hjm ▸ hm)
      exact hstop (this ▸ hex)
    rw [heq]
    refine ⟨⟨fun h => absurd h hno, fun h => ?_⟩, fun h => absurd h hno, ?_⟩
    · exfalso
      refine h (iterationAt T D pixel m (newtonIterate D pixel m))
        (List.mem_map.mpr ⟨m, List.mem_range.mpr (Nat.lt_succ_self m), rfl⟩) ?_
      rw [iterationAt_b]
      exact not_lt.mp hstop
    · intro it hit
      obtain ⟨j, _, rfl⟩ := List.mem_map.mp hit
      simp [residual]
  · rw [heq]
    have hyes : ∃ it ∈ (exhaustedResult T D pixel raw_J_p_p raw_J_p_d).iterations,
        it.warnMaxIterations = true :=
      ⟨iterationAt T D pixel T.kMaxNumDistortionSteps
          (newtonIterate D pixel T.kMaxNumDistortionSteps),
        List.mem_map.mpr ⟨_, List.mem_range.mpr (Nat.lt_succ_self _), rfl⟩,
        (iterationAt_warnMaxIterations T D pixel _ _).mpr ⟨hall _ (le_refl _), rfl⟩⟩
    refine ⟨⟨fun _ => ?_, fun _ => hyes⟩, fun _ => ⟨rfl, rfl, ?_⟩, ?_⟩
    · intro it hit
      obtain ⟨j, hj, rfl⟩ := List.mem_map.mp hit
      rw [iterationAt_b]
      exact not_le.mpr (hall j (Nat.lt_succ_iff.mp (List.mem_range.mp hj)))
    · simp only [exhaustedResult, List.range_succ, List.map_append, List.map_cons, List.map_nil,
        List.getLast?_concat, Option.map_some']
      rw [iterationAt_next_of_exceeds T D pixel _ _ (hall _ (le_refl _))]
      rfl
    · intro it hit
      obtain ⟨j, _, rfl⟩ := List.mem_map.mp hit
      simp [residual]

/-- C7, as stated, fails: in the first pass of the run of the mirror map at `(1, 0)` the
condition of the "Numerical issues detected." warning holds, while the determinant of the pixel
Jacobian is `-1`, of absolute value `1 ≥ kSmallAngleTolerance = 1/8`. -/
theorem undistort_numerical_issues_without_small_abs_det :
    ∃ it ∈ (undistort exampleTraits mirrorDistortion ![1, 0] false false).iterations,
      it.warnNumericalIssues = true ∧
      it.J_p_p_i = forwardJ mirrorDistortion it.x ∧
      ¬ |determinant (forwardJ mirrorDistortion it.x)| < exampleTraits.kSmallAngleTolerance := by
  rw [mirror_run]
  refine ⟨iterationAt exampleTraits mirrorDistortion ![1, 0] 0
      (newtonIterate mirrorDistortion ![1, 0] 0),
    List.mem_map.mpr ⟨0, by simp, rfl⟩, ?_, by simp, ?_⟩
  · rw [iterationAt_warnNumericalIssues]
    constructor
    · simp [exceeds, exampleTraits, dot, newtonIterate, residual, forward, mirrorDistortion]
      norm_num
    · simp [exampleTraits, determinant, newtonIterate, forwardJ, mirrorDistortion]
      norm_num
  · simp [exampleTraits, determinant, newtonIterate, forwardJ, mirrorDistortion]
    norm_num

/-- C7, amended: in every pass of the loop, entered with the Newton estimate `x` of its counter,
the condition of the "Numerical issues detected." warning holds exactly when the residual fails
the tolerance test and `det(J) < kSmallAngleTolerance` for the pixel Jacobian `J` of `distort` at
`x` (the signed determinant, and only in passes that update).  Whenever the residual fails the
tolerance test the pass updates `output := output - J⁻¹ * residual`, whatever the determinant, and
the loop goes on from there: the next pass starts from the updated estimate, or, after the pass
with counter `kMaxNumDistortionSteps`, the updated estimate is returned. -/
theorem undistort_numerical_issues_warning (T : NumericVariableTraits K)
    (D : AbstractDistortion K) (pixel : Pixel K) (raw_J_p_p raw_J_p_d : Bool)
    (it : Iteration K) (hit : it ∈ (undistort T D pixel raw_J_p_p raw_J_p_d).iterations) :
    it.x = newtonIterate D pixel it.i ∧
    it.b = forward D it.x - pixel ∧
    it.J_p_p_i = forwardJ D it.x ∧
    (it.warnNumericalIssues = true ↔
      T.kDistortionTolerance2 < dot it.b it.b ∧
        determinant it.J_p_p_i < T.kSmallAngleTolerance) ∧
    (T.kDistortionTolerance2 < dot it.b it.b →
      it.next = it.x - Matrix.mulVec (inverse it.J_p_p_i) it.b ∧
      (it.i < T.kMaxNumDistortionSteps →
        ∃ it2 ∈ (undistort T D pixel raw_J_p_p raw_J_p_d).iterations,
          it2.i = it.i + 1 ∧ it2.x = it.next) ∧
      (it.i = T.kMaxNumDistortionSteps →
        (undistort T D pixel raw_J_p_p raw_J_p_d).output = it.next)) := by
  have hrec : ∀ j, (iterationAt T D pixel j (newtonIterate D pixel j)).x =
        newtonIterate D pixel (iterationAt T D pixel j (newtonIterate D pixel j)).i ∧
      (iterationAt T D pixel j (newtonIterate D pixel j)).b =
        forward D (iterationAt T D pixel j (newtonIterate D pixel j)).x - pixel ∧
      (iterationAt T D pixel j (newtonIterate D pixel j)).J_p_p_i =
        forwardJ D (iterationAt T D pixel j (newtonIterate D pixel j)).x ∧
      ((iterationAt T D pixel j (newtonIterate D pixel j)).warnNumericalIssues = true ↔
        T.kDistortionTolerance2 < dot (iterationAt T D pixel j (newtonIterate D pixel j)).b
            (iterationAt T D pixel j (newtonIterate D pixel j)).b ∧
          determinant (iterationAt T D pixel j (newtonIterate D pixel j)).J_p_p_i <
            T.kSmallAngleTolerance) := by
    intro j
    refine ⟨by simp, by simp [residual], by simp, ?_⟩
    rw [iterationAt_warnNumericalIssues, iterationAt_b, iterationAt_J_p_p_i]
    rfl
  have hnext : ∀ j, T.kDistortionTolerance2 <
        dot (iterationAt T D pixel j (newtonIterate D pixel j)).b
          (iterationAt T D pixel j (newtonIterate D pixel j)).b →
      exceeds T D pixel (newtonIterate D pixel j) ∧
      (iterationAt T D pixel j (newtonIterate D pixel j)).next =
        newtonIterate D pixel (j + 1) ∧
      (iterationAt T D pixel j (newtonIterate D pixel j)).next =
        (iterationAt T D pixel j (newtonIterate D pixel j)).x -
          Matrix.mulVec (inverse (iterationAt T D pixel j (newtonIterate D pixel j)).J_p_p_i)
            (iterationAt T D pixel j (newtonIterate D pixel j)).b := by
    intro j hb
    rw [iterationAt_b] at hb
    have hex : exceeds T D pixel (newtonIterate D pixel j) := hb
    refine ⟨hex, iterationAt_next_of_exceeds T D pixel j _ hex, ?_⟩
    rw [iterationAt_next_of_exceeds T D pixel j _ hex, iterationAt_x, iterationAt_b,
      iterationAt_J_p_p_i]
    rfl
  rcases undistort_run T D pixel raw_J_p_p raw_J_p_d with ⟨m, hm, _, hstop, heq⟩ | ⟨_, heq⟩
  · rw [heq] at hit ⊢
    obtain ⟨j, hj, rfl⟩ := List.mem_map.mp hit
    have hjm : j ≤ m := Nat.lt_succ_iff.mp (List.mem_range.mp hj)
    obtain ⟨h1, h2, h3, h4⟩ := hrec j
    refine ⟨h1, h2, h3, h4, fun hb => ?_⟩
    obtain ⟨hex, hn1, hn2⟩ := hnext j hb
    have hlt : j < m := lt_of_le_of_ne hjm (fun h => hstop (h ▸ hex))
    refine ⟨hn2, fun _ => ?_, fun hk => ?_⟩
    · refine ⟨iterationAt T D pixel (j + 1) (newtonIterate D pixel (j + 1)),
        List.mem_map.mpr ⟨j + 1, List.mem_range.mpr (Nat.succ_lt_succ hlt), rfl⟩, ?_, ?_⟩
      · simp
      · rw [iterationAt_x, hn1]
    · rw [iterationAt_i] at hk
      omega
  · rw [heq] at hit ⊢
    obtain ⟨j, hj, rfl⟩ := List.mem_map.mp hit
    have hjm : j ≤ T.kMaxNumDistortionSteps := Nat.lt_succ_iff.mp (List.mem_range.mp hj)
    obtain ⟨h1, h2, h3, h4⟩ := hrec j
    refine ⟨h1, h2, h3, h4, fun hb => ?_⟩
    obtain ⟨_, hn1, hn2⟩ := hnext j hb
    refine ⟨hn2, fun hk => ?_, fun hk => ?_⟩
    · rw [iterationAt_i] at hk
      refine ⟨iterationAt T D pixel (j + 1) (newtonIterate D pixel (j + 1)),
        List.mem_map.mpr ⟨j + 1, List.mem_range.mpr (Nat.succ_lt_succ hk), rfl⟩, ?_, ?_⟩
      · simp
      · rw [iterationAt_x, hn1]
    · rw [iterationAt_i] at hk
      rw [hn1, hk]
      rfl

/-- A pass to which the amended C7 applies: the first pass of the mirror run, whose residual
fails the tolerance test and which therefore updates `output`. -/
theorem undistort_numerical_issues_warning_witness :
    iterationAt exampleTraits mirrorDistortion ![1, 0] 0 ![1, 0] ∈
      (undistort exampleTraits mirrorDistortion ![1, 0] true true).iterations ∧
    ((iterationAt exampleTraits mirrorDistortion ![1, 0] 0 ![1, 0]).warnNumericalIssues = true ↔
      exampleTraits.kDistortionTolerance2 <
          dot (iterationAt exampleTraits mirrorDistortion ![1, 0] 0 ![1, 0]).b
            (iterationAt exampleTraits mirrorDistortion ![1, 0] 0 ![1, 0]).b ∧
        determinant (iterationAt exampleTraits mirrorDistortion ![1, 0] 0 ![1, 0]).J_p_p_i <
          exampleTraits.kSmallAngleTolerance) ∧
    (iterationAt exampleTraits mirrorDistortion ![1, 0] 0 ![1, 0]).next =
      (iterationAt exampleTraits mirrorDistortion ![1, 0] 0 ![1, 0]).x -
        Matrix.mulVec (inverse (iterationAt exampleTraits mirrorDistortion ![1, 0] 0 ![1, 0]).J_p_p_i)
          (iterationAt exampleTraits mirrorDistortion ![1, 0] 0 ![1, 0]).b :=
  ⟨mirror_first_pass_mem true true,
   (undistort_numerical_issues_warning exampleTraits mirrorDistortion ![1, 0] true true _
     (mirror_first_pass_mem true true)).2.2.2.1,
   ((undistort_numerical_issues_warning exampleTraits mirrorDistortion ![1, 0] true true _
     (mirror_first_pass_mem true true)).2.2.2.2 mirror_first_pass_exceeds).1⟩

end Diagnostics

/-! ## Optional outputs -/

section OptionalOutputs

variable {K : Type} [LinearOrderedField K]

/-- The calls of a run with `raw_J_p_d` non-null: those of the loop, none of which passes a
parameter-Jacobian pointer, then the one call after the loop, at the returned pixel. -/
theorem undistort_calls_with_param_request (T : NumericVariableTraits K)
    (D : AbstractDistortion K) (pixel : Pixel K) (raw_J_p_p : Bool) :
    ∃ loopCalls : List (DistortCall K),
      (undistort T D pixel raw_J_p_p true).calls =
        loopCalls ++ [paramCall D (undistort T D pixel raw_J_p_p true).output] ∧
      loopCalls.length = (undistort T D pixel raw_J_p_p true).iterations.length ∧
      (∀ c ∈ loopCalls, c.raw_J_p_d = false) ∧
      ((undistort T D pixel raw_J_p_p true).calls.filter (fun c => c.raw_J_p_d)).length =
        (if D.size = 0 then 0 else 1) := by
  obtain ⟨n, _, _, hit, hcalls⟩ := undistort_iterations T D pixel raw_J_p_p true
  have hloop : ∀ c ∈ (List.range n).map (fun j => loopCall (newtonIterate D pixel j)),
      c.raw_J_p_d = false := by
    intro c hc
    obtain ⟨j, _, rfl⟩ := List.mem_map.mp hc
    rfl
  refine ⟨(List.range n).map (fun j => loopCall (newtonIterate D pixel j)), ?_, ?_, hloop, ?_⟩
  · rw [hcalls]; simp
  · rw [hit]; simp
  · rw [hcalls, List.filter_append, List.length_append]
    have h0 : List.filter (fun c : DistortCall K => c.raw_J_p_d)
        ((List.range n).map (fun j => loopCall (newtonIterate D pixel j))) = [] := by
      rw [List.filter_eq_nil_iff]
      intro c hc
      simp [hloop c hc]
    rw [h0]
    by_cases hsize : D.size = 0 <;> simp [paramCall, dataNonNull, hsize]

/-- C8, as stated, fails: the mirror map has no parameters, so in the run at `(1, 0)` with
`raw_J_p_d` non-null the call after the loop passes the null data pointer of a 2×0 matrix; no call
to `distort` requests the parameter Jacobian, rather than exactly one. -/
theorem undistort_param_jacobian_not_requested_without_parameters :
    mirrorDistortion.size = 0 ∧
    (∀ c ∈ (undistort exampleTraits mirrorDistortion ![1, 0] false true).calls,
      c.raw_J_p_d = false) ∧
    ¬ ((undistort exampleTraits mirrorDistortion ![1, 0] false true).calls.filter
        (fun c => c.raw_J_p_d)).length = 1 := by
  obtain ⟨loopCalls, hcalls, _, hloop, hcount⟩ :=
    undistort_calls_with_param_request exampleTraits mirrorDistortion ![1, 0] false
  have hsize : mirrorDistortion.size = 0 := rfl
  refine ⟨hsize, ?_, ?_⟩
  · intro c hc
    rw [hcalls] at hc
    rcases List.mem_append.mp hc with h | h
    · exact hloop c h
    · rw [List.mem_singleton.mp h]
      simp [paramCall, dataNonNull, hsize]
  · rw [hcount, if_pos hsize]
    exact Nat.zero_ne_one

/-- C8, amended: with `raw_J_p_d` null every call `undistort` makes to `distort` passes null for
the parameter Jacobian, one call per pass of the loop, and nothing is stored through `raw_J_p_d`;
with `raw_J_p_p` null nothing is stored through `raw_J_p_p`; with `raw_J_p_d` non-null the calls
are those of the loop, each passing null for the parameter Jacobian, followed by exactly one call
after the loop, at the returned pixel, which passes the data pointer of a fresh 2×`size` matrix:
it requests the parameter Jacobian, exactly once, when the distortion has a bound parameter, and
passes null when it has none; a matrix is stored through `raw_J_p_d` in both cases. -/
theorem undistort_null_means_skip (T : NumericVariableTraits K) (D : AbstractDistortion K)
    (pixel : Pixel K) :
    (∀ raw_J_p_p : Bool,
      (∀ c ∈ (undistort T D pixel raw_J_p_p false).calls, c.raw_J_p_d = false) ∧
      (undistort T D pixel raw_J_p_p false).calls.length =
        (undistort T D pixel raw_J_p_p false).iterations.length ∧
      (undistort T D pixel raw_J_p_p false).raw_J_p_d = none) ∧
    (∀ raw_J_p_d : Bool, (undistort T D pixel false raw_J_p_d).raw_J_p_p = none) ∧
    (∀ raw_J_p_p : Bool, ∃ loopCalls : List (DistortCall K),
      (undistort T D pixel raw_J_p_p true).calls =
        loopCalls ++
          [{ pixel := (undistort T D pixel raw_J_p_p true).output, raw_J_p_p := false,
             raw_J_p_d := decide (D.size ≠ 0) }] ∧
      loopCalls.length = (undistort T D pixel raw_J_p_p true).iterations.length ∧
      (∀ c ∈ loopCalls, c.raw_J_p_d = false) ∧
      ((undistort T D pixel raw_J_p_p true).calls.filter (fun c => c.raw_J_p_d)).length =
        (if D.size = 0 then 0 else 1) ∧
      (undistort T D pixel raw_J_p_p true).raw_J_p_d.isSome = true) := by
  refine ⟨fun a => ?_, fun b => ?_, fun a => ?_⟩
  · obtain ⟨n, _, _, hit, hcalls⟩ := undistort_iterations T D pixel a false
    refine ⟨?_, ?_, ?_⟩
    · intro c hc
      rw [hcalls] at hc
      simp only [Bool.false_eq_true, if_false, List.append_nil] at hc
      obtain ⟨j, _, rfl⟩ := List.mem_map.mp hc
      rfl
    · rw [hcalls, hit]
      simp
    · simp [undistort]
  · cases b <;> simp [undistort]
  · obtain ⟨loopCalls, hcalls, hlen, hloop, hcount⟩ :=
      undistort_calls_with_param_request T D pixel a
    exact ⟨loopCalls, hcalls, hlen, hloop, hcount, by simp [undistort]⟩

/-- C9: `allocatePixelDistortionJacobian` requests a matrix of exactly 2 rows (the pixel parameter
count) and as many columns as the distortion has bound parameters, which is the shape of the
matrix `undistort` stores through a non-null `raw_J_p_d`. -/
theorem allocatePixelDistortionJacobian_shape (D : AbstractDistortion K) :
    allocatePixelDistortionJacobian D = (2, D.size) ∧
    ∀ (T : NumericVariableTraits K) (pixel : Pixel K) (raw_J_p_p : Bool),
      ∃ M : DynamicInputJacobian K D.size,
        (undistort T D pixel raw_J_p_p true).raw_J_p_d = some M ∧
        shape M = allocatePixelDistortionJacobian D := by
  refine ⟨rfl, fun T pixel a => ?_⟩
  simp [undistort, shape, allocatePixelDistortionJacobian, kNumParameters]

end OptionalOutputs

/-! ## The angular metric -/

section AngularLemmas

theorem dot3_self_nonneg (u : Fin 3 → ℝ) : 0 ≤ dot3 u u := by
  unfold dot3
  linarith [mul_self_nonneg (u 0), mul_self_nonneg (u 1), mul_self_nonneg (u 2)]

theorem dot3_self_pos (u : Fin 3 → ℝ) (hu : u ≠ 0) : 0 < dot3 u u := by
  refine lt_of_le_of_ne (dot3_self_nonneg u) (fun h0 => hu ?_)
  unfold dot3 at h0
  have h1 := mul_self_nonneg (u 0)
  have h2 := mul_self_nonneg (u 1)
  have h3 := mul_self_nonneg (u 2)
  have e0 : u 0 = 0 := mul_self_eq_zero.mp (by linarith)
  have e1 : u 1 = 0 := mul_self_eq_zero.mp (by linarith)
  have e2 : u 2 = 0 := mul_self_eq_zero.mp (by linarith)
  ext i
  fin_cases i
  · exact e0
  · exact e1
  · exact e2

/-- The Cauchy-Schwarz inequality for 3-vectors. -/
theorem dot3_sq_le (u v : Fin 3 → ℝ) : dot3 u v ^ 2 ≤ dot3 u u * dot3 v v := by
  unfold dot3
  nlinarith [sq_nonneg (u 0 * v 1 - u 1 * v 0), sq_nonneg (u 0 * v 2 - u 2 * v 0),
    sq_nonneg (u 1 * v 2 - u 2 * v 1)]

theorem abs_dot3_le (u v : Fin 3 → ℝ) : |dot3 u v| ≤ norm3 u * norm3 v := by
  unfold norm3
  rw [← Real.sqrt_mul (dot3_self_nonneg u)]
  exact Real.abs_le_sqrt (dot3_sq_le u v)

theorem unit_x_ne_zero : (![1, 0, 0] : Fin 3 → ℝ) ≠ 0 := by
  intro h
  have := congrFun h 0
  simp at this

theorem unit_y_ne_zero : (![0, 1, 0] : Fin 3 → ℝ) ≠ 0 := by
  intro h
  have := congrFun h 1
  simp at this

/-- C10: for non-zero 3-vectors `u`, `v` the angular distance equals
`arccos(u·v / (|u|·|v|))`: by the Cauchy-Schwarz inequality the ratio lies in `[-1, 1]`, where the
clamp changes nothing; in particular the two agree within the test's `1e-7`. -/
theorem angular_distance_closed_form (u v : Fin 3 → ℝ) (hu : u ≠ 0) (hv : v ≠ 0) :
    AngularMetric.Distance u v = Real.arccos (dot3 u v / (norm3 u * norm3 v)) ∧
    |AngularMetric.Distance u v - angularClosedForm u v| ≤ kNumericTolerance := by
  have hpos : 0 < norm3 u * norm3 v :=
    mul_pos (Real.sqrt_pos.mpr (dot3_self_pos u hu)) (Real.sqrt_pos.mpr (dot3_self_pos v hv))
  have habs := abs_le.mp (abs_dot3_le u v)
  have hle : dot3 u v / (norm3 u * norm3 v) ≤ 1 := (div_le_one hpos).mpr habs.2
  have hge : -1 ≤ dot3 u v / (norm3 u * norm3 v) := by
    rw [le_div_iff₀ hpos]
    linarith [habs.1]
  have heq : AngularMetric.Distance u v = Real.arccos (dot3 u v / (norm3 u * norm3 v)) := by
    unfold AngularMetric.Distance
    rw [min_eq_right hle, max_eq_right hge]
  refine ⟨heq, ?_⟩
  rw [heq, angularClosedForm, sub_self, abs_zero, kNumericTolerance]
  norm_num

/-- Two non-zero vectors to which C10 applies: the first two unit vectors. -/
theorem angular_distance_closed_form_witness :
    (![1, 0, 0] : Fin 3 → ℝ) ≠ 0 ∧ (![0, 1, 0] : Fin 3 → ℝ) ≠ 0 ∧
    AngularMetric.Distance ![1, 0, 0] ![0, 1, 0] =
      Real.arccos (dot3 ![1, 0, 0] ![0, 1, 0] / (norm3 ![1, 0, 0] * norm3 ![0, 1, 0])) :=
  ⟨unit_x_ne_zero, unit_y_ne_zero,
   (angular_distance_closed_form _ _ unit_x_ne_zero unit_y_ne_zero).1⟩

end AngularLemmas

/-! ## Behaviour of the Newton loop -/

section NewtonBehaviour

variable {K : Type} [LinearOrderedField K]

/-- The residual of the start `distort (2, 0) = (1, 0)` under the halving map has squared norm
exactly the tolerance `1/4`. -/
theorem halve_start_residual :
    dot (forward halveDistortion (forward halveDistortion ![2, 0]) - forward halveDistortion ![2, 0])
        (forward halveDistortion (forward halveDistortion ![2, 0]) -
          forward halveDistortion ![2, 0]) =
      exampleTraits.kDistortionTolerance2 := by
  simp [exampleTraits, dot, forward, halveDistortion]
  norm_num

/-- C11: whenever `|distort(p) - p|² ≤ kDistortionTolerance2`, equality included, `undistort`
returns `p` itself: the loop is left through `break` in its first pass, `distort` is called once
inside the loop, and no pass updates `output`. -/
theorem undistort_immediate_convergence (T : NumericVariableTraits K)
    (D : AbstractDistortion K) (pixel : Pixel K) (raw_J_p_p raw_J_p_d : Bool)
    (h : dot (forward D pixel - pixel) (forward D pixel - pixel) ≤ T.kDistortionTolerance2) :
    (undistort T D pixel raw_J_p_p raw_J_p_d).output = pixel ∧
    (undistort T D pixel raw_J_p_p raw_J_p_d).broke = true ∧
    (undistort T D pixel raw_J_p_p raw_J_p_d).iterations.length = 1 ∧
    ((undistort T D pixel raw_J_p_p raw_J_p_d).calls.filter (fun c => c.raw_J_p_p)).length = 1 ∧
    (undistort T D pixel raw_J_p_p raw_J_p_d).iterations.filter (fun it => it.exceeded) = [] ∧
    (∀ it ∈ (undistort T D pixel raw_J_p_p raw_J_p_d).iterations,
      it.x = pixel ∧ it.next = pixel) := by
  have hstop : ¬ exceeds T D pixel (newtonIterate D pixel 0) := not_lt.mpr h
  have hstop2 : ¬ exceeds T D pixel pixel := hstop
  rw [undistort_eq_convergedResult T D pixel raw_J_p_p raw_J_p_d 0 (Nat.zero_le _)
    (fun j hj => absurd hj (Nat.not_lt_zero j)) hstop]
  refine ⟨rfl, rfl, by simp [convergedResult], ?_, ?_, ?_⟩
  · cases raw_J_p_d <;> simp [convergedResult, loopCall, paramCall, List.range_succ]
  · have hfalse : (iterationAt T D pixel 0 pixel).exceeded = false := by
      cases hval : (iterationAt T D pixel 0 pixel).exceeded
      · rfl
      · exact absurd ((iterationAt_exceeded T D pixel 0 pixel).mp hval) hstop2
    simp [convergedResult, newtonIterate, List.range_succ, hfalse]
  · intro it hit
    obtain ⟨j, hj, rfl⟩ := List.mem_map.mp hit
    obtain rfl : j = 0 := by
      have := List.mem_range.mp hj
      omega
    exact ⟨iterationAt_x T D pixel 0 _, iterationAt_next_of_not_exceeds T D pixel 0 _ hstop⟩

/-- A pixel to which C11 applies at the boundary: under the halving map the residual of `(1, 0)`
has squared norm equal to the tolerance, and `(1, 0)` is returned. -/
theorem undistort_immediate_convergence_witness :
    dot (forward halveDistortion (forward halveDistortion ![2, 0]) - forward halveDistortion ![2, 0])
        (forward halveDistortion (forward halveDistortion ![2, 0]) -
          forward halveDistortion ![2, 0]) =
      exampleTraits.kDistortionTolerance2 ∧
    (undistort exampleTraits halveDistortion (forward halveDistortion ![2, 0]) true true).output =
      forward halveDistortion ![2, 0] ∧
    (undistort exampleTraits halveDistortion (forward halveDistortion ![2, 0])
      true true).iterations.length = 1 :=
  ⟨halve_start_residual,
   (undistort_immediate_convergence exampleTraits halveDistortion _ true true
     (le_of_eq halve_start_residual)).1,
   (undistort_immediate_convergence exampleTraits halveDistortion _ true true
     (le_of_eq halve_start_residual)).2.2.1⟩

/-- C12: `undistort` refines the reference recursion `x_0 = pixel`,
`x_{j+1} = x_j - J(x_j)⁻¹ * (distort(x_j) - pixel)` (`newtonIterate`): whenever the loop is left
through the tolerance test, the returned pixel is `x_k` for the least index `k` with
`|distort(x_k) - pixel|² ≤ kDistortionTolerance2`, and `k ≤ kMaxNumDistortionSteps`. -/
theorem undistort_refines_newton (T : NumericVariableTraits K)
    (D : AbstractDistortion K) (pixel : Pixel K) (raw_J_p_p raw_J_p_d : Bool)
    (h : (undistort T D pixel raw_J_p_p raw_J_p_d).broke = true) :
    newtonIterate D pixel 0 = pixel ∧
    (∀ j, newtonIterate D pixel (j + 1) =
      newtonIterate D pixel j -
        Matrix.mulVec (inverse (forwardJ D (newtonIterate D pixel j)))
          (forward D (newtonIterate D pixel j) - pixel)) ∧
    ∃ k, k ≤ T.kMaxNumDistortionSteps ∧
      (undistort T D pixel raw_J_p_p raw_J_p_d).output = newtonIterate D pixel k ∧
      dot (forward D (newtonIterate D pixel k) - pixel)
          (forward D (newtonIterate D pixel k) - pixel) ≤ T.kDistortionTolerance2 ∧
      ∀ j, j < k →
        ¬ dot (forward D (newtonIterate D pixel j) - pixel)
            (forward D (newtonIterate D pixel j) - pixel) ≤ T.kDistortionTolerance2 := by
  obtain ⟨m, hm, hlt, hstop, heq⟩ := undistort_broke T D pixel raw_J_p_p raw_J_p_d h
  refine ⟨rfl, fun j => rfl, m, hm, by rw [heq]; rfl, not_lt.mp hstop, fun j hj => ?_⟩
  exact not_le.mpr (hlt j hj)

/-- A converging run to which C12 applies: the shift with target `(0, 0)`, which returns the
first Newton estimate. -/
theorem undistort_refines_newton_witness :
    (undistort exampleTraits shiftDistortion ![0, 0] true true).broke = true ∧
    ∃ k, k ≤ exampleTraits.kMaxNumDistortionSteps ∧
      (undistort exampleTraits shiftDistortion ![0, 0] true true).output =
        newtonIterate shiftDistortion ![0, 0] k ∧
      dot (forward shiftDistortion (newtonIterate shiftDistortion ![0, 0] k) - ![0, 0])
          (forward shiftDistortion (newtonIterate shiftDistortion ![0, 0] k) - ![0, 0]) ≤
        exampleTraits.kDistortionTolerance2 ∧
      ∀ j, j < k →
        ¬ dot (forward shiftDistortion (newtonIterate shiftDistortion ![0, 0] j) - ![0, 0])
            (forward shiftDistortion (newtonIterate shiftDistortion ![0, 0] j) - ![0, 0]) ≤
          exampleTraits.kDistortionTolerance2 :=
  ⟨by rw [shift_run]; rfl,
   (undistort_refines_newton exampleTraits shiftDistortion ![0, 0] true true
     (by rw [shift_run]; rfl)).2.2⟩

/-- The halving map is affine: `distort x = A * x + 0` with `A` half the identity. -/
theorem halve_forward (x : Pixel ℚ) :
    forward halveDistortion x = Matrix.mulVec !![1 / 2, 0; 0, 1 / 2] x + 0 := by
  ext i
  fin_cases i
  · simp [forward, halveDistortion, Matrix.mulVec, Matrix.dotProduct, Fin.sum_univ_two]
    ring
  · simp [forward, halveDistortion, Matrix.mulVec, Matrix.dotProduct, Fin.sum_univ_two]
    ring

theorem halve_determinant_ne_zero : determinant (!![1 / 2, 0; 0, 1 / 2] : Jacobian ℚ) ≠ 0 := by
  simp [determinant]

/-- The residual `(-1, 0)` of the start `(2, 0)` under the halving map fails the tolerance
test. -/
theorem halve_far_start_exceeds :
    exampleTraits.kDistortionTolerance2 <
      dot (Matrix.mulVec !![1 / 2, 0; 0, 1 / 2] ![2, 0] + 0 - ![2, 0])
        (Matrix.mulVec !![1 / 2, 0; 0, 1 / 2] ![2, 0] + 0 - ![2, 0]) := by
  simp [exampleTraits, dot, Matrix.mulVec, Matrix.dotProduct, Fin.sum_univ_two]
  norm_num

/-- C13: for an affine forward map `distort x = A * x + c` whose pixel Jacobian is `A` everywhere,
with `det A ≠ 0`, a non-negative tolerance and a pixel `p` whose first residual fails the
tolerance test, `undistort` returns exactly `A⁻¹ * (p - c)`, the pixel that `distort` maps to `p`,
after a single update, and the pixel Jacobian it stores, when requested, is `A⁻¹`. -/
theorem undistort_affine_one_step (T : NumericVariableTraits K)
    (D : AbstractDistortion K) (pixel : Pixel K) (raw_J_p_p raw_J_p_d : Bool)
    (A : Jacobian K) (c : Pixel K)
    (hfwd : ∀ x, forward D x = Matrix.mulVec A x + c)
    (hJ : ∀ x, forwardJ D x = A)
    (hdet : determinant A ≠ 0)
    (htol : 0 ≤ T.kDistortionTolerance2)
    (hres : T.kDistortionTolerance2 <
      dot (Matrix.mulVec A pixel + c - pixel) (Matrix.mulVec A pixel + c - pixel)) :
    (undistort T D pixel raw_J_p_p raw_J_p_d).output = Matrix.mulVec (inverse A) (pixel - c) ∧
    Matrix.mulVec A (undistort T D pixel raw_J_p_p raw_J_p_d).output + c = pixel ∧
    ((undistort T D pixel raw_J_p_p raw_J_p_d).iterations.filter
      (fun it => it.exceeded)).length = 1 ∧
    (undistort T D pixel raw_J_p_p raw_J_p_d).raw_J_p_p =
      (if raw_J_p_p then some (inverse A) else none) ∧
    A * inverse A = 1 ∧ inverse A * A = 1 := by
  have hAi := mul_inverse_of_determinant_ne_zero A hdet
  have hiA := inverse_mul_of_determinant_ne_zero A hdet
  have hx1 : newtonIterate D pixel 1 = Matrix.mulVec (inverse A) (pixel - c) := by
    show pixel - Matrix.mulVec (inverse (forwardJ D pixel)) (forward D pixel - pixel) = _
    rw [hJ, hfwd, Matrix.mulVec_sub, Matrix.mulVec_sub, Matrix.mulVec_add, Matrix.mulVec_mulVec,
      hiA, Matrix.one_mulVec]
    abel
  have hback : Matrix.mulVec A (Matrix.mulVec (inverse A) (pixel - c)) + c = pixel := by
    rw [Matrix.mulVec_mulVec, hAi, Matrix.one_mulVec]
    abel
  have hex0 : exceeds T D pixel (newtonIterate D pixel 0) := by
    show T.kDistortionTolerance2 < dot (forward D pixel - pixel) (forward D pixel - pixel)
    rw [hfwd]
    exact hres
  have hex0b : exceeds T D pixel pixel := hex0
  have hstop1 : ¬ exceeds T D pixel (newtonIterate D pixel 1) := by
    show ¬ T.kDistortionTolerance2 <
      dot (forward D (newtonIterate D pixel 1) - pixel) (forward D (newtonIterate D pixel 1) - pixel)
    rw [hx1, hfwd, hback, sub_self]
    simpa [dot] using htol
  have htrue : ∀ i, (iterationAt T D pixel i pixel).exceeded = true :=
    fun i => (iterationAt_exceeded T D pixel i pixel).mpr hex0b
  have hfalse : ∀ i, (iterationAt T D pixel i (newtonIterate D pixel 1)).exceeded = false := by
    intro i
    cases hval : (iterationAt T D pixel i (newtonIterate D pixel 1)).exceeded
    · rfl
    · exact absurd ((iterationAt_exceeded T D pixel i _).mp hval) hstop1
  by_cases hk : 1 ≤ T.kMaxNumDistortionSteps
  · have hall : ∀ j, j < 1 → exceeds T D pixel (newtonIterate D pixel j) := by
      intro j hj
      obtain rfl : j = 0 := by omega
      exact hex0
    rw [undistort_eq_convergedResult T D pixel raw_J_p_p raw_J_p_d 1 hk hall hstop1]
    refine ⟨hx1, ?_, ?_, ?_, hAi, hiA⟩
    · show Matrix.mulVec A (newtonIterate D pixel 1) + c = pixel
      rw [hx1, hback]
    · have h0 := htrue 0
      have h1 := hfalse 1
      simp only [newtonIterate] at h1
      simp [convergedResult, List.range_succ, newtonIterate, h0, h1]
    · simp [convergedResult, hJ]
  · have hk0 : T.kMaxNumDistortionSteps = 0 := by omega
    have hall : ∀ j, j ≤ T.kMaxNumDistortionSteps →
        exceeds T D pixel (newtonIterate D pixel j) := by
      intro j hj
      obtain rfl : j = 0 := by omega
      exact hex0
    rw [undistort_eq_exhaustedResult T D pixel raw_J_p_p raw_J_p_d hall]
    refine ⟨?_, ?_, ?_, ?_, hAi, hiA⟩
    · show newtonIterate D pixel (T.kMaxNumDistortionSteps + 1) = _
      rw [hk0, hx1]
    · show Matrix.mulVec A (newtonIterate D pixel (T.kMaxNumDistortionSteps + 1)) + c = pixel
      rw [hk0, hx1, hback]
    · have h0 := htrue 0
      simp [exhaustedResult, hk0, List.range_succ, newtonIterate, h0]
    · simp [exhaustedResult, hJ]

/-- An affine map to which C13 applies: the halving map at `(2, 0)`, whose first residual
`(-1, 0)` fails the tolerance test. -/
theorem undistort_affine_one_step_witness :
    (undistort exampleTraits halveDistortion ![2, 0] true true).output =
      Matrix.mulVec (inverse !![1 / 2, 0; 0, 1 / 2]) (![2, 0] - 0) ∧
    (undistort exampleTraits halveDistortion ![2, 0] true true).raw_J_p_p =
      some (inverse !![1 / 2, 0; 0, 1 / 2]) :=
  ⟨(undistort_affine_one_step exampleTraits halveDistortion ![2, 0] true true
      !![1 / 2, 0; 0, 1 / 2] 0 halve_forward (fun _ => rfl) halve_determinant_ne_zero
      (by norm_num [exampleTraits]) halve_far_start_exceeds).1,
   (undistort_affine_one_step exampleTraits halveDistortion ![2, 0] true true
      !![1 / 2, 0; 0, 1 / 2] 0 halve_forward (fun _ => rfl) halve_determinant_ne_zero
      (by norm_num [exampleTraits]) halve_far_start_exceeds).2.2.2.1⟩

/-- In the exhausted run of the squaring map the stored pixel Jacobian, taken at the estimate
`(1, 0)`, has the entry `1/2` where the inverse Jacobian at the returned pixel `(-1, 0)` has
`-1/2`. -/
theorem square_jacobian_mismatch :
    inverse (forwardJ squareDistortion
        (newtonIterate squareDistortion ![-3, 0] exampleTraits.kMaxNumDistortionSteps)) ≠
      inverse (forwardJ squareDistortion
        (newtonIterate squareDistortion ![-3, 0] (exampleTraits.kMaxNumDistortionSteps + 1))) := by
  have h2 : newtonIterate squareDistortion ![-3, 0] exampleTraits.kMaxNumDistortionSteps =
      ![1, 0] := square_iterate_two
  have h3 : newtonIterate squareDistortion ![-3, 0]
      (exampleTraits.kMaxNumDistortionSteps + 1) = ![-1, 0] := square_iterate_three
  rw [h2, h3]
  intro h
  have h00 := congrFun (congrFun h 0) 0
  simp [inverse, determinant, forwardJ, squareDistortion] at h00
  norm_num at h00

/-- C14: when the loop runs out of passes without meeting the tolerance, the returned pixel is
the Newton estimate number `kMaxNumDistortionSteps + 1`, one update beyond the estimate number
`kMaxNumDistortionSteps`, while the pixel Jacobian stored is `inverse()` of the forward Jacobian
at the estimate number `kMaxNumDistortionSteps`, and the parameter Jacobian stored is
`-(J(previous estimate)⁻¹ * J_params(returned pixel))`. -/
theorem undistort_exhausted_jacobians (T : NumericVariableTraits K)
    (D : AbstractDistortion K) (pixel : Pixel K) (raw_J_p_p raw_J_p_d : Bool)
    (h : (undistort T D pixel raw_J_p_p raw_J_p_d).broke = false) :
    (undistort T D pixel raw_J_p_p raw_J_p_d).output =
      newtonStep D pixel (newtonIterate D pixel T.kMaxNumDistortionSteps) ∧
    (undistort T D pixel raw_J_p_p raw_J_p_d).raw_J_p_p =
      (if raw_J_p_p then
        some (inverse (forwardJ D (newtonIterate D pixel T.kMaxNumDistortionSteps)))
       else none) ∧
    (undistort T D pixel raw_J_p_p raw_J_p_d).raw_J_p_d =
      (if raw_J_p_d then
        some (-(inverse (forwardJ D (newtonIterate D pixel T.kMaxNumDistortionSteps)) *
          forwardJParams D (undistort T D pixel raw_J_p_p raw_J_p_d).output))
       else none) ∧
    (∀ it ∈ (undistort T D pixel raw_J_p_p raw_J_p_d).iterations,
      T.kDistortionTolerance2 < dot it.b it.b) := by
  obtain ⟨hall, heq⟩ := undistort_not_broke T D pixel raw_J_p_p raw_J_p_d h
  rw [heq]
  refine ⟨rfl, rfl, ?_, ?_⟩
  · cases raw_J_p_d <;> simp [exhaustedResult]
  · intro it hit
    obtain ⟨j, hj, rfl⟩ := List.mem_map.mp hit
    rw [iterationAt_b]
    exact hall j (Nat.lt_succ_iff.mp (List.mem_range.mp hj))

/-- An exhausted run to which C14 applies: the squaring map at `(-3, 0)`, where the stored pixel
Jacobian differs from the inverse Jacobian at the returned pixel. -/
theorem undistort_exhausted_jacobians_witness :
    (undistort exampleTraits squareDistortion ![-3, 0] true true).broke = false ∧
    (undistort exampleTraits squareDistortion ![-3, 0] true true).raw_J_p_p =
      some (inverse (forwardJ squareDistortion
        (newtonIterate squareDistortion ![-3, 0] exampleTraits.kMaxNumDistortionSteps))) ∧
    (undistort exampleTraits squareDistortion ![-3, 0] true true).raw_J_p_p ≠
      some (inverse (forwardJ squareDistortion
        (undistort exampleTraits squareDistortion ![-3, 0] true true).output)) :=
  ⟨by rw [square_run]; rfl,
   (undistort_exhausted_jacobians exampleTraits squareDistortion ![-3, 0] true true
     (by rw [square_run]; rfl)).2.1,
   by
     rw [square_run]
     intro hsame
     exact square_jacobian_mismatch (Option.some.inj hsame)⟩

/-- C15: the pixel `undistort` returns is the same for all four null/non-null combinations of
`raw_J_p_p` and `raw_J_p_d`, and the pixel Jacobian stored is the same whether or not `raw_J_p_d`
is supplied; so are the passes of the loop.  The calls inside the loop always pass the same
pointers to `distort`, so no assumption on `distort` is needed. -/
theorem undistort_requests_do_not_change_result (T : NumericVariableTraits K)
    (D : AbstractDistortion K) (pixel : Pixel K)
    (raw_J_p_p raw_J_p_d raw_J_p_p2 raw_J_p_d2 : Bool) :
    (undistort T D pixel raw_J_p_p raw_J_p_d).output =
      (undistort T D pixel raw_J_p_p2 raw_J_p_d2).output ∧
    (undistort T D pixel raw_J_p_p raw_J_p_d).raw_J_p_p =
      (undistort T D pixel raw_J_p_p raw_J_p_d2).raw_J_p_p ∧
    (undistort T D pixel raw_J_p_p raw_J_p_d).iterations =
      (undistort T D pixel raw_J_p_p2 raw_J_p_d2).iterations ∧
    (undistort T D pixel raw_J_p_p raw_J_p_d).broke =
      (undistort T D pixel raw_J_p_p2 raw_J_p_d2).broke := by
  cases raw_J_p_p <;> cases raw_J_p_d <;> cases raw_J_p_p2 <;> cases raw_J_p_d2 <;>
    simp [undistort]

end NewtonBehaviour

end hyper
